import Mathlib

/-!
# Uniform hash grid: cell indexing and neighbour query

Shallow embedding of `warp/native/hashgrid.h`.

Modelling conventions.

* A C `int` holds a mathematical integer (`Int`).  The cell id that
  `hash_grid_index` computes, `cz*(dim_x*dim_y) + cy*dim_x + cx`, is reduced to
  32-bit two's complement after every product and sum (`int_mul`, `int_add`),
  as the hardware does: it overflows on grids of `2^31` cells or more, whatever
  the coordinates.  Virtual cell coordinates, the bias `x + origin` and the
  cursor steps `x++` are not reduced: statements speak about coordinates for
  which these do not overflow.
* A C `float` holds a rational (`ℚ`).  Two readings of the float arithmetic are
  given.  `hash_grid_query`, `hash_grid_index_vec3` and `virtual_coord` compute
  every difference, sum and product exactly.  `hash_grid_query_f32`,
  `hash_grid_index_vec3_f32` and `virtual_coord_f32` round the result of every
  operation to binary32 (`fl32`: to nearest, ties to even, with subnormal
  numbers, without overflow to an infinity).
* The conversion `int(f)` is truncation toward zero.
* An `int*` array is a `List Int`; a read outside the list fails.
* A failed `assert` or a failed read makes the enclosing function return
  `none` (respectively `Outcome.fault`).
* The grid handle `uint64_t id` of `hash_grid_query` is replaced by the grid it
  points to.
-/

namespace wp

/-! ## Data model -/

/-- Three `float` components. -/
structure vec3 where
  x : ℚ
  y : ℚ
  z : ℚ
deriving DecidableEq

/-- The `HashGrid` struct. -/
structure HashGrid where
  cell_width : ℚ
  cell_width_inv : ℚ
  point_cells : List Int
  point_ids : List Int
  cell_starts : List Int
  cell_ends : List Int
  dim_x : Int
  dim_y : Int
  dim_z : Int
  num_points : Int
  max_points : Int
deriving DecidableEq

/-- The read `a[i]` of an `int*` array at an `int` index. -/
def array_read (a : List Int) (i : Int) : Option Int :=
  if 0 ≤ i then a[i.toNat]? else none

/-- The conversion `int(f)`: truncation toward zero. -/
def int_cast (f : ℚ) : Int :=
  if 0 ≤ f then ⌊f⌋ else ⌈f⌉

/-- The value a 32-bit `int` holds after an operation whose mathematical
result is `v`: the representative of `v` modulo `2^32` in `[-2^31, 2^31)`. -/
def int32 (v : Int) : Int :=
  (v + 2 ^ 31) % 2 ^ 32 - 2 ^ 31

/-- The product of two `int`. -/
def int_mul (a b : Int) : Int := int32 (a * b)

/-- The sum of two `int`. -/
def int_add (a b : Int) : Int := int32 (a + b)

/-- Rounding of a rational to the nearest integer, ties to the even one. -/
def round_even (t : ℚ) : Int :=
  if t - ⌊t⌋ < 1 / 2 then ⌊t⌋
  else if 1 / 2 < t - ⌊t⌋ then ⌊t⌋ + 1
  else if ⌊t⌋ % 2 = 0 then ⌊t⌋ else ⌊t⌋ + 1

/-- The number of binary digits of `n`, computed with `fuel` halvings at
most (`bit_length n n` is the number of digits of `n`). -/
def bit_length : Nat → Nat → Nat
  | 0, _ => 0
  | fuel + 1, n => if n = 0 then 0 else bit_length fuel (n / 2) + 1

/-- The binary exponent of a rational `t ≠ 0`: the `e` with
`2^e ≤ |t| < 2^(e+1)`. -/
def binade (t : ℚ) : Int :=
  let e : Int := (bit_length t.num.natAbs t.num.natAbs : Int) - (bit_length t.den t.den : Int)
  if (2 : ℚ) ^ e ≤ |t| then e else e - 1

/-- Rounding to binary32, to nearest with ties to even: 24 significant bits,
least exponent `-126`, below which the spacing stays `2^-149` (subnormal
numbers).  Overflow to an infinity is not modelled: the exponent has no upper
limit. -/
def fl32 (t : ℚ) : ℚ :=
  let u : ℚ := (2 : ℚ) ^ (max (binade t) (-126) - 23)
  round_even (t / u) * u

/-- The `float` difference `a - b`. -/
def float_sub (a b : ℚ) : ℚ := fl32 (a - b)

/-- The `float` sum `a + b`. -/
def float_add (a b : ℚ) : ℚ := fl32 (a + b)

/-- The `float` product `a * b`. -/
def float_mul (a b : ℚ) : ℚ := fl32 (a * b)

/-- The constant `origin = 1<<24` of `hash_grid_index`. -/
def origin : Int := 2 ^ 24

/-- The function `hash_grid_index(const HashGrid&, int, int, int)`: converts a
virtual cell coordinate to a physical cell id.  The three assertions are
checked; the mask is the bitwise and of two's complement integers; the
returned expression is evaluated in 32-bit arithmetic. -/
def hash_grid_index (grid : HashGrid) (x y z : Int) : Option Int :=
  let x := x + origin
  let y := y + origin
  let z := z + origin
  if x ≥ 0 ∧ y ≥ 0 ∧ z ≥ 0 then
    let cx := Int.land x (grid.dim_x - 1)
    let cy := Int.land y (grid.dim_y - 1)
    let cz := Int.land z (grid.dim_z - 1)
    some (int_add (int_add (int_mul cz (int_mul grid.dim_x grid.dim_y)) (int_mul cy grid.dim_x))
      cx)
  else
    none

/-- The overload `hash_grid_index(const HashGrid&, const vec3&)`, with exact
products. -/
def hash_grid_index_vec3 (grid : HashGrid) (p : vec3) : Option Int :=
  hash_grid_index grid
    (int_cast (p.x * grid.cell_width_inv))
    (int_cast (p.y * grid.cell_width_inv))
    (int_cast (p.z * grid.cell_width_inv))

/-- The struct `hash_grid_query_t`.  Its member `cell` is never written nor
read by the functions of the header and is left out. -/
structure hash_grid_query_t where
  x_start : Int
  y_start : Int
  z_start : Int
  x_end : Int
  y_end : Int
  z_end : Int
  x : Int
  y : Int
  z : Int
  cell_index : Int
  cell_end : Int
  grid : HashGrid
deriving DecidableEq

/-- The function `hash_grid_query`, with exact float arithmetic: builds the
traversal state of the box of cells around `pos` and loads the range of the
first cell. -/
def hash_grid_query (grid : HashGrid) (pos : vec3) (radius : ℚ) : Option hash_grid_query_t :=
  let x_start := int_cast ((pos.x - radius) * grid.cell_width_inv)
  let y_start := int_cast ((pos.y - radius) * grid.cell_width_inv)
  let z_start := int_cast ((pos.z - radius) * grid.cell_width_inv)
  let x_end := min (int_cast ((pos.x + radius) * grid.cell_width_inv)) (x_start + grid.dim_x - 1)
  let y_end := min (int_cast ((pos.y + radius) * grid.cell_width_inv)) (y_start + grid.dim_y - 1)
  let z_end := min (int_cast ((pos.z + radius) * grid.cell_width_inv)) (z_start + grid.dim_z - 1)
  match hash_grid_index grid x_start y_start z_start with
  | none => none
  | some cell =>
    match array_read grid.cell_starts cell, array_read grid.cell_ends cell with
    | some s, some e =>
      some { x_start := x_start, y_start := y_start, z_start := z_start,
             x_end := x_end, y_end := y_end, z_end := z_end,
             x := x_start, y := y_start, z := z_start,
             cell_index := s, cell_end := e, grid := grid }
    | _, _ => none

/-- The function `hash_grid_query`, with every float operation rounded to
binary32: the differences `pos.x - radius`, the sums `pos.x + radius` and
their products with `cell_width_inv`. -/
def hash_grid_query_f32 (grid : HashGrid) (pos : vec3) (radius : ℚ) :
    Option hash_grid_query_t :=
  let x_start := int_cast (float_mul (float_sub pos.x radius) grid.cell_width_inv)
  let y_start := int_cast (float_mul (float_sub pos.y radius) grid.cell_width_inv)
  let z_start := int_cast (float_mul (float_sub pos.z radius) grid.cell_width_inv)
  let x_end := min (int_cast (float_mul (float_add pos.x radius) grid.cell_width_inv))
    (x_start + grid.dim_x - 1)
  let y_end := min (int_cast (float_mul (float_add pos.y radius) grid.cell_width_inv))
    (y_start + grid.dim_y - 1)
  let z_end := min (int_cast (float_mul (float_add pos.z radius) grid.cell_width_inv))
    (z_start + grid.dim_z - 1)
  match hash_grid_index grid x_start y_start z_start with
  | none => none
  | some cell =>
    match array_read grid.cell_starts cell, array_read grid.cell_ends cell with
    | some s, some e =>
      some { x_start := x_start, y_start := y_start, z_start := z_start,
             x_end := x_end, y_end := y_end, z_end := z_end,
             x := x_start, y := y_start, z := z_start,
             cell_index := s, cell_end := e, grid := grid }
    | _, _ => none

/-- What one pass through the body of the `while (1)` loop of
`hash_grid_query_next` does. -/
inductive Step where
  /-- The pass executed `return true` after writing `index`. -/
  | yield (query : hash_grid_query_t) (index : Int)
  /-- The pass executed `return false`. -/
  | done (query : hash_grid_query_t)
  /-- The pass loaded the range of physical cell `cell` and the loop goes on. -/
  | load (query : hash_grid_query_t) (cell : Int)
  /-- An assertion or an array read failed. -/
  | fault
deriving DecidableEq

/-- The body of the `while (1)` loop of `hash_grid_query_next`. -/
def hash_grid_query_next_body (query : hash_grid_query_t) : Step :=
  if query.cell_index < query.cell_end then
    match array_read query.grid.point_ids query.cell_index with
    | none => Step.fault
    | some index => Step.yield { query with cell_index := query.cell_index + 1 } index
  else
    let query := { query with x := query.x + 1 }
    let query := if query.x > query.x_end then
        { query with x := query.x_start, y := query.y + 1 } else query
    let query := if query.y > query.y_end then
        { query with y := query.y_start, z := query.z + 1 } else query
    if query.z > query.z_end then
      Step.done query
    else
      match hash_grid_index query.grid query.x query.y query.z with
      | none => Step.fault
      | some cell =>
        match array_read query.grid.cell_starts cell, array_read query.grid.cell_ends cell with
        | some s, some e => Step.load { query with cell_index := s, cell_end := e } cell
        | _, _ => Step.fault

/-- The result of a call of `hash_grid_query_next`. -/
inductive Outcome where
  /-- The call returned `true`, with the updated query and `index`. -/
  | yield (query : hash_grid_query_t) (index : Int)
  /-- The call returned `false`, with the updated query. -/
  | done (query : hash_grid_query_t)
  /-- An assertion or an array read failed. -/
  | fault
  /-- The step budget ran out before the loop returned. -/
  | timeout
deriving DecidableEq

/-- The `while (1)` loop of `hash_grid_query_next`, run for at most `fuel`
passes. -/
def hash_grid_query_next_loop : Nat → hash_grid_query_t → Outcome
  | 0, _ => Outcome.timeout
  | fuel + 1, query =>
    match hash_grid_query_next_body query with
    | Step.yield q index => Outcome.yield q index
    | Step.done q => Outcome.done q
    | Step.load q _ => hash_grid_query_next_loop fuel q
    | Step.fault => Outcome.fault

/-- A number of passes after which the loop of `hash_grid_query_next` has
returned, whatever the query state (`hash_grid_query_next_loop_budget`). -/
def loop_budget (query : hash_grid_query_t) : Nat :=
  ((query.z_end + 1 - query.z).toNat * ((query.y_end + 1 - query.y_start).toNat + 1)
      + (query.y_end + 1 - query.y).toNat) * ((query.x_end + 1 - query.x_start).toNat + 1)
    + (query.x_end + 1 - query.x).toNat + 1

/-- The function `hash_grid_query_next`. -/
def hash_grid_query_next (query : hash_grid_query_t) : Outcome :=
  hash_grid_query_next_loop (loop_budget query) query

/-- The caller's loop `while (hash_grid_query_next(query, index)) { use index }`. -/
inductive Drain where
  /-- A call returned `false` after the calls before it had yielded `indices`. -/
  | finished (indices : List Int)
  /-- An assertion or an array read failed. -/
  | fault
  /-- The budget of calls ran out. -/
  | timeout
deriving DecidableEq

/-- At most `fuel` successive calls of `hash_grid_query_next`, collecting the
indices written by the calls that return `true`, until one returns `false`. -/
def drain_loop : Nat → hash_grid_query_t → Drain
  | 0, _ => Drain.timeout
  | fuel + 1, query =>
    match hash_grid_query_next query with
    | Outcome.yield q index =>
      match drain_loop fuel q with
      | Drain.finished indices => Drain.finished (index :: indices)
      | Drain.fault => Drain.fault
      | Drain.timeout => Drain.timeout
    | Outcome.done _ => Drain.finished []
    | Outcome.fault => Drain.fault
    | Outcome.timeout => Drain.timeout

/-- A number of calls that suffices to drain a query: every cell that is left
yields at most one index per slot of `point_ids`. -/
def drain_budget (query : hash_grid_query_t) : Nat :=
  loop_budget query * (query.grid.point_ids.length + 1) + 1

/-- Draining a query: `hash_grid_query_next` is called until it returns
`false`. -/
def drain (query : hash_grid_query_t) : Drain :=
  drain_loop (drain_budget query) query

/-- The cursor move of the `else` branch of `hash_grid_query_next`, on its own:
`x++`, then the two wrap-arounds. -/
def cursor_advance (query : hash_grid_query_t) : hash_grid_query_t :=
  let query := { query with x := query.x + 1 }
  let query := if query.x > query.x_end then
      { query with x := query.x_start, y := query.y + 1 } else query
  if query.y > query.y_end then
    { query with y := query.y_start, z := query.z + 1 } else query

/-! ## Specification vocabulary -/

/-- The integers `a, a+1, ..., b` in increasing order (empty when `b < a`). -/
def int_range (a b : Int) : List Int :=
  (List.range (b + 1 - a).toNat).map fun (i : Nat) => a + (i : Int)

/-- The slots `point_ids[cell_starts[c] .. cell_ends[c]-1]` of physical cell
`c`, in increasing slot order. -/
def cell_slice (g : HashGrid) (c : Int) : List Int :=
  match array_read g.cell_starts c, array_read g.cell_ends c with
  | some s, some e => (g.point_ids.take e.toNat).drop s.toNat
  | _, _ => []

/-- The slots of the physical cell that virtual cell `(x, y, z)` folds to. -/
def virtual_cell_points (g : HashGrid) (x y z : Int) : List Int :=
  match hash_grid_index g x y z with
  | some c => cell_slice g c
  | none => []

/-- The concatenation of the cell slots over the inclusive box of the query,
in row-major order: `x` innermost, then `y`, `z` outermost. -/
def box_points (q : hash_grid_query_t) : List Int :=
  (int_range q.z_start q.z_end).flatMap fun z =>
    (int_range q.y_start q.y_end).flatMap fun y =>
      (int_range q.x_start q.x_end).flatMap fun x => virtual_cell_points q.grid x y z

/-- A valid grid: a non-negative `cell_width_inv`, power-of-two dimensions
whose product, the number of cells, fits a 32-bit `int`, arrays of the declared
sizes, and for every cell `0 ≤ cell_starts[c] ≤ cell_ends[c] ≤ num_points`. -/
structure valid_grid (g : HashGrid) : Prop where
  cell_width_inv_nonneg : 0 ≤ g.cell_width_inv
  dim_x_pow2 : ∃ k : Nat, g.dim_x = 2 ^ k
  dim_y_pow2 : ∃ k : Nat, g.dim_y = 2 ^ k
  dim_z_pow2 : ∃ k : Nat, g.dim_z = 2 ^ k
  cells_fit : g.dim_x * g.dim_y * g.dim_z < 2 ^ 31
  num_points_eq : g.num_points = g.point_ids.length
  cell_starts_length : (g.cell_starts.length : Int) = g.dim_x * g.dim_y * g.dim_z
  cell_ends_length : (g.cell_ends.length : Int) = g.dim_x * g.dim_y * g.dim_z
  ranges : ∀ c s e, array_read g.cell_starts c = some s → array_read g.cell_ends c = some e →
    0 ≤ s ∧ s ≤ e ∧ e ≤ g.num_points

/-- The physical cells whose range is loaded by the passes of the loop of
`hash_grid_query_next`, over successive calls (also calls made after one has
returned `false`), for at most `fuel` passes in all. -/
def loaded_cells : Nat → hash_grid_query_t → List Int
  | 0, _ => []
  | fuel + 1, query =>
    match hash_grid_query_next_body query with
    | Step.yield q _ => loaded_cells fuel q
    | Step.done q => loaded_cells fuel q
    | Step.load q cell => cell :: loaded_cells fuel q
    | Step.fault => []

/-- Row-major order of cursors: `z` first, then `y`, then `x`. -/
def cursor_lt (x y z x1 y1 z1 : Int) : Prop :=
  z < z1 ∨ (z = z1 ∧ (y < y1 ∨ (y = y1 ∧ x < x1)))

/-! ## Example grids -/

/-- The grid built from `points_alias` with dims `(2, 2, 2)` and cell width 1:
both points fall into physical cell 0. -/
def grid_alias : HashGrid :=
  { cell_width := 1, cell_width_inv := 1,
    point_cells := [0, 0], point_ids := [0, 1],
    cell_starts := [0, 2, 2, 2, 2, 2, 2, 2], cell_ends := [2, 2, 2, 2, 2, 2, 2, 2],
    dim_x := 2, dim_y := 2, dim_z := 2, num_points := 2, max_points := 2 }

/-- The state `hash_grid_query` returns on `grid_alias` for the centre
`(0.5, 0.5, 0.5)` and radius `0.1`: the box is the single cell `(0, 0, 0)`. -/
def query_alias_near : hash_grid_query_t :=
  { x_start := 0, y_start := 0, z_start := 0, x_end := 0, y_end := 0, z_end := 0,
    x := 0, y := 0, z := 0, cell_index := 0, cell_end := 2, grid := grid_alias }

/-- The state `hash_grid_query` returns on `grid_alias` for the centre
`(0.5, 0.5, 0.5)` and radius `1`: the box is `[0, 1]³`, one whole period. -/
def query_alias_wide : hash_grid_query_t :=
  { x_start := 0, y_start := 0, z_start := 0, x_end := 1, y_end := 1, z_end := 1,
    x := 0, y := 0, z := 0, cell_index := 0, cell_end := 2, grid := grid_alias }

/-- The grid of the boundary-walk scenario: dims `(8, 1, 1)`, cell width 1,
built from the points `(i, 0, 0)` for `i = 0 .. 7`; point `i` is alone in
physical cell `i`. -/
def grid_line : HashGrid :=
  { cell_width := 1, cell_width_inv := 1,
    point_cells := [0, 1, 2, 3, 4, 5, 6, 7], point_ids := [0, 1, 2, 3, 4, 5, 6, 7],
    cell_starts := [0, 1, 2, 3, 4, 5, 6, 7], cell_ends := [1, 2, 3, 4, 5, 6, 7, 8],
    dim_x := 8, dim_y := 1, dim_z := 1, num_points := 8, max_points := 8 }

/-- The grid of the large-radius scenario: dims `(4, 4, 4)`, cell width 1, one
point per cell, point `c` alone in physical cell `c`. -/
def grid_cube : HashGrid :=
  { cell_width := 1, cell_width_inv := 1,
    point_cells := int_range 0 63, point_ids := int_range 0 63,
    cell_starts := int_range 0 63, cell_ends := int_range 1 64,
    dim_x := 4, dim_y := 4, dim_z := 4, num_points := 64, max_points := 64 }

/-- The state `hash_grid_query` returns on `grid_line` for the centre
`(3.5, 0.5, 0.5)` and radius `1.5`. -/
def query_line : hash_grid_query_t :=
  { x_start := 2, y_start := -1, z_start := -1, x_end := 5, y_end := -1, z_end := -1,
    x := 2, y := -1, z := -1, cell_index := 2, cell_end := 3, grid := grid_line }

/-- The state `hash_grid_query` returns on `grid_cube` for the centre
`(0.5, 0.5, 0.5)` and radius `1000`. -/
def query_cube : hash_grid_query_t :=
  { x_start := -999, y_start := -999, z_start := -999,
    x_end := -996, y_end := -996, z_end := -996,
    x := -999, y := -999, z := -999, cell_index := 21, cell_end := 22, grid := grid_cube }

/-! ## Vocabulary for sequences of calls -/

/-- The states a traversal started at `q0` reaches by calls of
`hash_grid_query_next`: every call is made on the state the call before it
left, whether that call returned `true` or `false`. -/
inductive Reachable (q0 : hash_grid_query_t) : hash_grid_query_t → Prop where
  | start : Reachable q0 q0
  | yield (q q1 : hash_grid_query_t) (i : Int) :
      Reachable q0 q → hash_grid_query_next q = Outcome.yield q1 i → Reachable q0 q1
  | done (q q1 : hash_grid_query_t) :
      Reachable q0 q → hash_grid_query_next q = Outcome.done q1 → Reachable q0 q1

/-- The exhausted states: the cursor is past the last plane and the range of
the current cell is used up. -/
def exhausted (q : hash_grid_query_t) : Prop :=
  q.z_end < q.z ∧ q.cell_end ≤ q.cell_index

/-- The state of `query_alias_near` after its two points were yielded. -/
def query_alias_spent : hash_grid_query_t :=
  { query_alias_near with cell_index := 2 }

/-- The state in which the call on `query_alias_spent` returns `false`. -/
def query_alias_done : hash_grid_query_t :=
  { query_alias_near with z := 1, cell_index := 2 }

/-- An exhausted state of `query_alias_wide`: the cursor `(0, 0, 2)` is past
the last plane `z_end = 1`. -/
def query_alias_past : hash_grid_query_t :=
  { query_alias_wide with z := 2, cell_index := 2 }

/-- The state after one more call on `query_alias_done`. -/
def query_alias_done2 : hash_grid_query_t :=
  { query_alias_near with z := 2, cell_index := 2 }

/-- The grid built from `points_neg` with dims `(2, 2, 2)` and cell width 1: the
integer cast puts the point into virtual cell `(0, 0, 0)`. -/
def grid_neg : HashGrid :=
  { cell_width := 1, cell_width_inv := 1,
    point_cells := [0], point_ids := [0],
    cell_starts := [0, 1, 1, 1, 1, 1, 1, 1], cell_ends := [1, 1, 1, 1, 1, 1, 1, 1],
    dim_x := 2, dim_y := 2, dim_z := 2, num_points := 1, max_points := 1 }

/-- The state `hash_grid_query` returns on `grid_neg` for the centre
`(-0.5, 0, 0)` and radius `0.1`. -/
def query_neg : hash_grid_query_t :=
  { x_start := 0, y_start := 0, z_start := 0, x_end := 0, y_end := 0, z_end := 0,
    x := 0, y := 0, z := 0, cell_index := 0, cell_end := 1, grid := grid_neg }

/-- The requirements on the arrays of a grid: power-of-two dimensions, cell
arrays of length `dim_x*dim_y*dim_z`, `point_ids` of length `num_points`, and
`0 ≤ cell_starts[c] ≤ cell_ends[c] ≤ num_points` for every cell. -/
structure sized_grid (g : HashGrid) : Prop where
  dim_x_pow2 : ∃ k : Nat, g.dim_x = 2 ^ k
  dim_y_pow2 : ∃ k : Nat, g.dim_y = 2 ^ k
  dim_z_pow2 : ∃ k : Nat, g.dim_z = 2 ^ k
  num_points_eq : g.num_points = g.point_ids.length
  cell_starts_length : (g.cell_starts.length : Int) = g.dim_x * g.dim_y * g.dim_z
  cell_ends_length : (g.cell_ends.length : Int) = g.dim_x * g.dim_y * g.dim_z
  ranges : ∀ c s e, array_read g.cell_starts c = some s → array_read g.cell_ends c = some e →
    0 ≤ s ∧ s ≤ e ∧ e ≤ g.num_points

/-- A well-formed traversal state: the grid arrays are sized and the number of
cells fits a 32-bit `int`, the start corner passes the assertions of
`hash_grid_index`, the cursor is not below the start corner, and the slot
cursor and its sentinel lie within `point_ids`. -/
def query_ok (q : hash_grid_query_t) : Prop :=
  (sized_grid q.grid ∧ q.grid.dim_x * q.grid.dim_y * q.grid.dim_z < 2 ^ 31) ∧
  -origin ≤ q.x_start ∧ -origin ≤ q.y_start ∧ -origin ≤ q.z_start ∧
  q.x_start ≤ q.x ∧ q.y_start ≤ q.y ∧ q.z_start ≤ q.z ∧
  0 ≤ q.cell_index ∧ q.cell_end ≤ q.grid.point_ids.length

/-- The virtual cell coordinate of a world coordinate: the quantization of
`hash_grid_index(vec3)` on one axis. -/
def virtual_coord (g : HashGrid) (t : ℚ) : Int :=
  int_cast (t * g.cell_width_inv)

/-- A grid of `2^33` cells, dims `(65536, 65536, 2)`, cell width 1, no point:
the product `dim_x*dim_y = 2^32` does not fit a 32-bit `int`. -/
def grid_huge : HashGrid :=
  { cell_width := 1, cell_width_inv := 1,
    point_cells := [], point_ids := [],
    cell_starts := List.replicate 8589934592 0, cell_ends := List.replicate 8589934592 0,
    dim_x := 65536, dim_y := 65536, dim_z := 2, num_points := 0, max_points := 0 }

/-- A grid of `2^32` cells, dims `(32768, 32768, 4)`, cell width 1, no point,
with correctly sized arrays. -/
def grid_big : HashGrid :=
  { cell_width := 1, cell_width_inv := 1,
    point_cells := [], point_ids := [],
    cell_starts := List.replicate 4294967296 0, cell_ends := List.replicate 4294967296 0,
    dim_x := 32768, dim_y := 32768, dim_z := 4, num_points := 0, max_points := 0 }

/-- The state `hash_grid_query` returns on `grid_huge` for the centre
`(0.5, 0.5, 0.875)` and radius `0.25`: the box is the two cells `(0, 0, 0)` and
`(0, 0, 1)`. -/
def query_huge : hash_grid_query_t :=
  { x_start := 0, y_start := 0, z_start := 0, x_end := 0, y_end := 0, z_end := 1,
    x := 0, y := 0, z := 0, cell_index := 0, cell_end := 0, grid := grid_huge }

/-- The virtual cell coordinate of a world coordinate with the product rounded
to binary32: the quantization of `hash_grid_index(vec3)` on one axis, as the
code computes it. -/
def virtual_coord_f32 (g : HashGrid) (t : ℚ) : Int :=
  int_cast (float_mul t g.cell_width_inv)

/-- An empty grid with dims `(8, 1, 1)` for the cell width `0.1f`, the
binary32 number nearest to `1/10`, and its binary32 inverse `10`. -/
def grid_tenth : HashGrid :=
  { cell_width := 13421773 / 134217728, cell_width_inv := 10,
    point_cells := [], point_ids := [],
    cell_starts := List.replicate 8 0, cell_ends := List.replicate 8 0,
    dim_x := 8, dim_y := 1, dim_z := 1, num_points := 0, max_points := 0 }

/-! ## Cell indexer -/

theorem land_mask_eq_emod (b : Int) (k : Nat) (hb : 0 ≤ b) :
    Int.land b (2 ^ k - 1) = b % 2 ^ k := by
  obtain ⟨n, rfl⟩ := Int.eq_ofNat_of_zero_le hb
  have h1 : ((2 : Int) ^ k - 1) = ((2 ^ k - 1 : Nat) : Int) := by
    have : 1 ≤ 2 ^ k := Nat.one_le_two_pow
    push_cast [Nat.cast_sub this]
    rfl
  rw [h1]
  show ((n &&& (2 ^ k - 1) : Nat) : Int) = _
  rw [Nat.and_pow_two_sub_one_eq_mod]
  push_cast
  rfl

theorem pow2_pos (k : Nat) : (0 : Int) < 2 ^ k := by positivity

theorem int32_of_range (v : Int) (h0 : -2 ^ 31 ≤ v) (h1 : v < 2 ^ 31) : int32 v = v := by
  unfold int32
  omega

theorem cell_id_range (dx dy dz a b c : Int)
    (ha : 0 ≤ a) (had : a < dx) (hb : 0 ≤ b) (hbd : b < dy) (hc : 0 ≤ c) (hcd : c < dz) :
    0 ≤ c * (dx * dy) + b * dx + a ∧ c * (dx * dy) + b * dx + a < dx * dy * dz := by
  have hdx : 0 ≤ dx := by omega
  have hdy : 0 ≤ dy := by omega
  have hxy : 0 ≤ dx * dy := mul_nonneg hdx hdy
  constructor
  · have := mul_nonneg hc hxy
    have := mul_nonneg hb hdx
    linarith
  · have h1 : c * (dx * dy) ≤ (dz - 1) * (dx * dy) :=
      mul_le_mul_of_nonneg_right (by omega) hxy
    have h2 : b * dx ≤ (dy - 1) * dx := mul_le_mul_of_nonneg_right (by omega) hdx
    nlinarith

/-- On a grid of fewer than `2^31` cells no product and no sum of the cell id
overflows. -/
theorem cell_id_int32 (dx dy dz a b c : Int)
    (ha : 0 ≤ a) (had : a < dx) (hb : 0 ≤ b) (hbd : b < dy) (hc : 0 ≤ c) (hcd : c < dz)
    (hfit : dx * dy * dz < 2 ^ 31) :
    int_add (int_add (int_mul c (int_mul dx dy)) (int_mul b dx)) a
      = c * (dx * dy) + b * dx + a := by
  have hdx : 0 ≤ dx := by omega
  have hdy : 0 ≤ dy := by omega
  have hxy : 0 ≤ dx * dy := mul_nonneg hdx hdy
  have t0 := cell_id_range dx dy dz a b c ha had hb hbd hc hcd
  have t1 : 0 ≤ c * (dx * dy) := mul_nonneg hc hxy
  have t2 : 0 ≤ b * dx := mul_nonneg hb hdx
  have t3 : dx * dy ≤ dx * dy * dz := by
    have : dx * dy * 1 ≤ dx * dy * dz := mul_le_mul_of_nonneg_left (by omega) hxy
    linarith
  unfold int_add int_mul
  rw [int32_of_range (dx * dy) (by omega) (by omega),
    int32_of_range (c * (dx * dy)) (by omega) (by omega),
    int32_of_range (b * dx) (by omega) (by omega),
    int32_of_range (c * (dx * dy) + b * dx) (by omega) (by omega),
    int32_of_range (c * (dx * dy) + b * dx + a) (by omega) (by omega)]

/-- The value of `hash_grid_index` when the three assertions hold, the
dimensions are powers of two and the grid has fewer than `2^31` cells: each
biased coordinate is reduced modulo its dimension. -/
theorem hash_grid_index_eq (g : HashGrid) (kx ky kz : Nat)
    (hx : g.dim_x = 2 ^ kx) (hy : g.dim_y = 2 ^ ky) (hz : g.dim_z = 2 ^ kz)
    (hfit : g.dim_x * g.dim_y * g.dim_z < 2 ^ 31)
    (x y z : Int) (h1 : -origin ≤ x) (h2 : -origin ≤ y) (h3 : -origin ≤ z) :
    hash_grid_index g x y z =
      some (((z + origin) % g.dim_z) * (g.dim_x * g.dim_y)
        + ((y + origin) % g.dim_y) * g.dim_x + (x + origin) % g.dim_x) := by
  have hx0 : 0 ≤ x + origin := by omega
  have hy0 : 0 ≤ y + origin := by omega
  have hz0 : 0 ≤ z + origin := by omega
  have px : (0 : Int) < g.dim_x := hx ▸ pow2_pos kx
  have py : (0 : Int) < g.dim_y := hy ▸ pow2_pos ky
  have pz : (0 : Int) < g.dim_z := hz ▸ pow2_pos kz
  have key := cell_id_int32 g.dim_x g.dim_y g.dim_z _ _ _
    (Int.emod_nonneg (x + origin) px.ne') (Int.emod_lt_of_pos _ px)
    (Int.emod_nonneg (y + origin) py.ne') (Int.emod_lt_of_pos _ py)
    (Int.emod_nonneg (z + origin) pz.ne') (Int.emod_lt_of_pos _ pz) hfit
  rw [← key]
  simp only [hash_grid_index, ge_iff_le, hx0, hy0, hz0, and_self, if_true]
  rw [hx, hy, hz, land_mask_eq_emod _ _ hx0, land_mask_eq_emod _ _ hy0,
    land_mask_eq_emod _ _ hz0]

theorem hash_grid_index_none (g : HashGrid) (x y z : Int)
    (h : x < -origin ∨ y < -origin ∨ z < -origin) : hash_grid_index g x y z = none := by
  have : ¬ (x + origin ≥ 0 ∧ y + origin ≥ 0 ∧ z + origin ≥ 0) := by omega
  simp only [hash_grid_index, this, if_false]

theorem origin_emod (k : Nat) (hk : k ≤ 24) (x : Int) :
    (x + origin) % 2 ^ k = x % 2 ^ k := by
  have : origin = 2 ^ (24 - k) * 2 ^ k := by
    rw [← pow_add, Nat.sub_add_cancel hk]; rfl
  rw [this, Int.add_mul_emod_self]

theorem radix_inj (d q1 q2 a1 a2 : Int) (h1 : 0 ≤ a1) (h1d : a1 < d) (h2 : 0 ≤ a2)
    (h2d : a2 < d) (h : q1 * d + a1 = q2 * d + a2) : q1 = q2 ∧ a1 = a2 := by
  have ha : a1 = a2 := by
    have e1 : (q1 * d + a1) % d = a1 := by
      rw [add_comm, Int.add_mul_emod_self, Int.emod_eq_of_lt h1 h1d]
    have e2 : (q2 * d + a2) % d = a2 := by
      rw [add_comm, Int.add_mul_emod_self, Int.emod_eq_of_lt h2 h2d]
    rw [← e1, ← e2, h]
  subst ha
  have hd : d ≠ 0 := by omega
  exact ⟨mul_right_cancel₀ hd (by linarith), rfl⟩

theorem cell_id_inj (dx dy a1 a2 b1 b2 c1 c2 : Int)
    (ha1 : 0 ≤ a1) (ha1d : a1 < dx) (ha2 : 0 ≤ a2) (ha2d : a2 < dx)
    (hb1 : 0 ≤ b1) (hb1d : b1 < dy) (hb2 : 0 ≤ b2) (hb2d : b2 < dy)
    (h : c1 * (dx * dy) + b1 * dx + a1 = c2 * (dx * dy) + b2 * dx + a2) :
    a1 = a2 ∧ b1 = b2 ∧ c1 = c2 := by
  have h' : (c1 * dy + b1) * dx + a1 = (c2 * dy + b2) * dx + a2 := by linarith
  obtain ⟨hq, ha⟩ := radix_inj dx _ _ a1 a2 ha1 ha1d ha2 ha2d h'
  obtain ⟨hc, hb⟩ := radix_inj dy _ _ b1 b2 hb1 hb1d hb2 hb2d hq
  exact ⟨ha, hb, hc⟩

/-- With dimensions dividing `2^24` the bias drops out of the remainders. -/
theorem hash_grid_index_mod (g : HashGrid) (kx ky kz : Nat)
    (hx : g.dim_x = 2 ^ kx) (hy : g.dim_y = 2 ^ ky) (hz : g.dim_z = 2 ^ kz)
    (hkx : kx ≤ 24) (hky : ky ≤ 24) (hkz : kz ≤ 24)
    (hfit : g.dim_x * g.dim_y * g.dim_z < 2 ^ 31)
    (x y z : Int) (h1 : -2 ^ 24 ≤ x) (h2 : -2 ^ 24 ≤ y) (h3 : -2 ^ 24 ≤ z) :
    hash_grid_index g x y z =
      some ((z % g.dim_z) * (g.dim_x * g.dim_y) + (y % g.dim_y) * g.dim_x + x % g.dim_x) := by
  rw [hash_grid_index_eq g kx ky kz hx hy hz hfit x y z h1 h2 h3, hx, hy, hz,
    origin_emod kx hkx, origin_emod ky hky, origin_emod kz hkz]

/-- The physical cell id lies in `[0, dim_x*dim_y*dim_z)`. -/
theorem hash_grid_index_in_range (g : HashGrid) (kx ky kz : Nat)
    (hx : g.dim_x = 2 ^ kx) (hy : g.dim_y = 2 ^ ky) (hz : g.dim_z = 2 ^ kz)
    (hfit : g.dim_x * g.dim_y * g.dim_z < 2 ^ 31)
    (x y z : Int) (h1 : -2 ^ 24 ≤ x) (h2 : -2 ^ 24 ≤ y) (h3 : -2 ^ 24 ≤ z) :
    ∃ c, hash_grid_index g x y z = some c ∧ 0 ≤ c ∧ c < g.dim_x * g.dim_y * g.dim_z := by
  have px : (0 : Int) < g.dim_x := hx ▸ pow2_pos kx
  have py : (0 : Int) < g.dim_y := hy ▸ pow2_pos ky
  have pz : (0 : Int) < g.dim_z := hz ▸ pow2_pos kz
  refine ⟨_, hash_grid_index_eq g kx ky kz hx hy hz hfit x y z h1 h2 h3, ?_⟩
  exact cell_id_range g.dim_x g.dim_y g.dim_z _ _ _
    (Int.emod_nonneg _ px.ne') (Int.emod_lt_of_pos _ px)
    (Int.emod_nonneg _ py.ne') (Int.emod_lt_of_pos _ py)
    (Int.emod_nonneg _ pz.ne') (Int.emod_lt_of_pos _ pz)

/-! ## Rounding to binary32 -/

theorem round_even_intCast (n : Int) : round_even (n : ℚ) = n := by
  unfold round_even
  rw [Int.floor_intCast]
  simp

theorem round_even_bounds (t : ℚ) : ⌊t⌋ ≤ round_even t ∧ round_even t ≤ ⌊t⌋ + 1 := by
  unfold round_even
  split_ifs <;> omega

theorem round_even_mono (a b : ℚ) (h : a ≤ b) : round_even a ≤ round_even b := by
  have hf := Int.floor_mono h
  rcases lt_or_eq_of_le hf with hlt | heq
  · have := (round_even_bounds a).2
    have := (round_even_bounds b).1
    omega
  · unfold round_even
    rw [← heq]
    split_ifs <;> first | omega | (exfalso; linarith)

theorem round_even_neg (t : ℚ) : round_even (-t) = -round_even t := by
  unfold round_even
  rw [Int.floor_neg]
  by_cases hi : (⌊t⌋ : ℚ) = t
  · have hc : ⌈t⌉ = ⌊t⌋ := by
      rw [Int.ceil_eq_iff]
      constructor
      · rw [hi]; linarith
      · rw [hi]
    rw [hc]
    have e1 : -t - ((-⌊t⌋ : Int) : ℚ) = 0 := by push_cast; rw [hi]; ring
    have e2 : t - (⌊t⌋ : ℚ) = 0 := by rw [hi]; ring
    rw [e1, e2]
    norm_num
  · have h1 : (⌊t⌋ : ℚ) < t := lt_of_le_of_ne (Int.floor_le t) hi
    have h2 := Int.lt_floor_add_one t
    have hc : ⌈t⌉ = ⌊t⌋ + 1 := by
      rw [Int.ceil_eq_iff]
      push_cast
      constructor <;> linarith
    rw [hc]
    have e1 : -t - ((-(⌊t⌋ + 1) : Int) : ℚ) = 1 - (t - ⌊t⌋) := by push_cast; ring
    rw [e1]
    split_ifs <;> first | omega | (exfalso; linarith)

theorem bit_length_zero (fuel : Nat) : bit_length fuel 0 = 0 := by
  cases fuel <;> simp [bit_length]

theorem bit_length_spec : ∀ fuel n : Nat, n ≤ fuel →
    n < 2 ^ bit_length fuel n ∧ (n ≠ 0 → 2 ^ bit_length fuel n ≤ 2 * n)
  | 0, n, h => by
    have : n = 0 := by omega
    subst this
    simp [bit_length]
  | fuel + 1, n, h => by
    unfold bit_length
    split_ifs with h0
    · subst h0; simp
    · obtain ⟨a, b⟩ := bit_length_spec fuel (n / 2) (by omega)
      rw [pow_succ]
      refine ⟨by omega, fun _ => ?_⟩
      by_cases h1 : n / 2 = 0
      · rw [h1, bit_length_zero]
        omega
      · have := b h1
        omega

theorem two_zpow_pos (e : Int) : (0 : ℚ) < (2 : ℚ) ^ e := zpow_pos (by norm_num) e

theorem binade_spec (t : ℚ) (ht : t ≠ 0) :
    (2 : ℚ) ^ binade t ≤ |t| ∧ |t| < (2 : ℚ) ^ (binade t + 1) := by
  have hn : t.num.natAbs ≠ 0 := by
    rw [Ne, Int.natAbs_eq_zero, Rat.num_eq_zero]
    exact ht
  have hd : t.den ≠ 0 := t.den_nz
  obtain ⟨a1, a2⟩ := bit_length_spec t.num.natAbs t.num.natAbs (le_refl _)
  obtain ⟨b1, b2⟩ := bit_length_spec t.den t.den (le_refl _)
  have a2 := a2 hn
  have b2 := b2 hd
  have habs : |t| = (t.num.natAbs : ℚ) / (t.den : ℚ) := by
    rw [Rat.abs_def, Rat.divInt_eq_div]
    push_cast
    rw [Nat.cast_natAbs]
    push_cast
    rfl
  have hdq : (0 : ℚ) < (t.den : ℚ) := by exact_mod_cast Nat.pos_of_ne_zero hd
  have A1 : (t.num.natAbs : ℚ) < (2 : ℚ) ^ bit_length t.num.natAbs t.num.natAbs := by
    exact_mod_cast a1
  have A2 : (2 : ℚ) ^ bit_length t.num.natAbs t.num.natAbs ≤ 2 * (t.num.natAbs : ℚ) := by
    exact_mod_cast a2
  have B1 : (t.den : ℚ) < (2 : ℚ) ^ bit_length t.den t.den := by exact_mod_cast b1
  have B2 : (2 : ℚ) ^ bit_length t.den t.den ≤ 2 * (t.den : ℚ) := by exact_mod_cast b2
  have two : (2 : ℚ) ≠ 0 := by norm_num
  have pB : (0 : ℚ) < (2 : ℚ) ^ bit_length t.den t.den := by positivity
  have E : ∀ k : Int, (2 : ℚ) ^ ((bit_length t.num.natAbs t.num.natAbs : Int)
      - (bit_length t.den t.den : Int) + k)
      = (2 : ℚ) ^ bit_length t.num.natAbs t.num.natAbs / (2 : ℚ) ^ bit_length t.den t.den
        * (2 : ℚ) ^ k := by
    intro k
    rw [zpow_add₀ two, zpow_sub₀ two, zpow_natCast, zpow_natCast]
  unfold binade
  dsimp only
  rw [habs]
  split_ifs with h
  · refine ⟨h, ?_⟩
    rw [E 1, zpow_one, div_lt_iff₀ hdq, div_mul_eq_mul_div, div_mul_eq_mul_div, lt_div_iff₀ pB]
    nlinarith
  · rw [not_le] at h
    have e0 : (bit_length t.num.natAbs t.num.natAbs : Int) - (bit_length t.den t.den : Int) - 1 + 1
        = (bit_length t.num.natAbs t.num.natAbs : Int) - (bit_length t.den t.den : Int) := by ring
    rw [e0]
    refine ⟨?_, h⟩
    have e1 : (bit_length t.num.natAbs t.num.natAbs : Int) - (bit_length t.den t.den : Int) - 1
        = (bit_length t.num.natAbs t.num.natAbs : Int) - (bit_length t.den t.den : Int) + (-1) := by
      ring
    rw [e1, E (-1), le_div_iff₀ hdq, zpow_neg, zpow_one, div_mul_eq_mul_div,
      div_mul_eq_mul_div, div_le_iff₀ pB]
    nlinarith

theorem binade_neg (t : ℚ) : binade (-t) = binade t := by
  unfold binade
  simp only [Rat.neg_num, Rat.neg_den, Int.natAbs_neg, abs_neg]

theorem fl32_neg (t : ℚ) : fl32 (-t) = -fl32 t := by
  unfold fl32
  dsimp only
  rw [binade_neg, neg_div, round_even_neg]
  push_cast
  ring

theorem binade_mono (s t : ℚ) (hs : 0 < s) (h : s ≤ t) : binade s ≤ binade t := by
  have ht : 0 < t := lt_of_lt_of_le hs h
  obtain ⟨s1, -⟩ := binade_spec s hs.ne'
  obtain ⟨-, t2⟩ := binade_spec t ht.ne'
  rw [abs_of_pos hs] at s1
  rw [abs_of_pos ht] at t2
  have : (2 : ℚ) ^ binade s < (2 : ℚ) ^ (binade t + 1) :=
    lt_of_le_of_lt (le_trans s1 h) t2
  have := (zpow_lt_zpow_iff_right₀ (by norm_num : (1 : ℚ) < 2)).mp this
  omega

theorem round_even_zero : round_even 0 = 0 := by
  have := round_even_intCast 0
  simpa using this

theorem fl32_nonneg (t : ℚ) (h : 0 ≤ t) : 0 ≤ fl32 t := by
  unfold fl32
  dsimp only
  have hu := two_zpow_pos (max (binade t) (-126) - 23)
  have h1 : 0 ≤ round_even (t / (2 : ℚ) ^ (max (binade t) (-126) - 23)) := by
    rw [← round_even_zero]
    exact round_even_mono _ _ (div_nonneg h hu.le)
  have h2 : (0 : ℚ) ≤ (round_even (t / (2 : ℚ) ^ (max (binade t) (-126) - 23)) : ℚ) := by
    exact_mod_cast h1
  exact mul_nonneg h2 hu.le

theorem fl32_le_zpow (t : ℚ) (ht : 0 < t) :
    fl32 t ≤ (2 : ℚ) ^ (max (binade t) (-126) + 1) := by
  obtain ⟨-, t2⟩ := binade_spec t ht.ne'
  rw [abs_of_pos ht] at t2
  have two : (2 : ℚ) ≠ 0 := by norm_num
  have hu := two_zpow_pos (max (binade t) (-126) - 23)
  have hE : (2 : ℚ) ^ (max (binade t) (-126) + 1)
      = ((2 ^ 24 : Int) : ℚ) * (2 : ℚ) ^ (max (binade t) (-126) - 23) := by
    have : max (binade t) (-126) + 1 = 24 + (max (binade t) (-126) - 23) := by ring
    rw [this, zpow_add₀ two]
    norm_num
  have h1 : t ≤ (2 : ℚ) ^ (max (binade t) (-126) + 1) :=
    le_trans t2.le (zpow_le_zpow_right₀ (by norm_num) (by omega))
  have h2 : t / (2 : ℚ) ^ (max (binade t) (-126) - 23) ≤ ((2 ^ 24 : Int) : ℚ) := by
    rw [div_le_iff₀ hu, ← hE]
    exact h1
  have h3 := round_even_mono _ _ h2
  rw [round_even_intCast] at h3
  have h4 : (round_even (t / (2 : ℚ) ^ (max (binade t) (-126) - 23)) : ℚ)
      ≤ ((2 ^ 24 : Int) : ℚ) := by exact_mod_cast h3
  rw [hE]
  unfold fl32
  dsimp only
  exact mul_le_mul_of_nonneg_right h4 hu.le

theorem zpow_le_fl32 (t : ℚ) (ht : 0 < t) (hn : -126 ≤ binade t) :
    (2 : ℚ) ^ binade t ≤ fl32 t := by
  obtain ⟨t1, -⟩ := binade_spec t ht.ne'
  rw [abs_of_pos ht] at t1
  have two : (2 : ℚ) ≠ 0 := by norm_num
  have hm : max (binade t) (-126) = binade t := max_eq_left hn
  have hu := two_zpow_pos (binade t - 23)
  have hE : (2 : ℚ) ^ binade t = ((2 ^ 23 : Int) : ℚ) * (2 : ℚ) ^ (binade t - 23) := by
    have : binade t = 23 + (binade t - 23) := by ring
    nth_rewrite 1 [this]
    rw [zpow_add₀ two]
    norm_num
  have h2 : ((2 ^ 23 : Int) : ℚ) ≤ t / (2 : ℚ) ^ (binade t - 23) := by
    rw [le_div_iff₀ hu, ← hE]
    exact t1
  have h3 := round_even_mono _ _ h2
  rw [round_even_intCast] at h3
  have h4 : ((2 ^ 23 : Int) : ℚ) ≤ (round_even (t / (2 : ℚ) ^ (binade t - 23)) : ℚ) := by
    exact_mod_cast h3
  rw [hE]
  unfold fl32
  dsimp only
  rw [hm]
  exact mul_le_mul_of_nonneg_right h4 hu.le

theorem fl32_mono_pos (s t : ℚ) (hs : 0 < s) (h : s ≤ t) : fl32 s ≤ fl32 t := by
  have ht : 0 < t := lt_of_lt_of_le hs h
  have hb := binade_mono s t hs h
  rcases eq_or_lt_of_le (max_le_max_right (-126) hb) with he | hlt
  · unfold fl32
    dsimp only
    rw [he]
    have hu := two_zpow_pos (max (binade t) (-126) - 23)
    have := round_even_mono _ _ (div_le_div_of_nonneg_right h hu.le)
    have h2 : (round_even (s / (2 : ℚ) ^ (max (binade t) (-126) - 23)) : ℚ)
        ≤ (round_even (t / (2 : ℚ) ^ (max (binade t) (-126) - 23)) : ℚ) := by
      exact_mod_cast this
    exact mul_le_mul_of_nonneg_right h2 hu.le
  · have hn : -126 ≤ binade t := by
      by_contra hc
      rw [max_eq_right (by omega : binade t ≤ -126)] at hlt
      have := le_max_right (binade s) (-126)
      omega
    rw [max_eq_left hn] at hlt
    refine le_trans (fl32_le_zpow s hs) (le_trans ?_ (zpow_le_fl32 t ht hn))
    exact zpow_le_zpow_right₀ (by norm_num) (by omega)

/-- Rounding to binary32 is monotone. -/
theorem fl32_mono (s t : ℚ) (h : s ≤ t) : fl32 s ≤ fl32 t := by
  have z : fl32 0 = 0 := by
    unfold fl32
    simp [round_even_zero]
  rcases lt_trichotomy 0 s with hs | hs | hs
  · exact fl32_mono_pos s t hs h
  · rw [← hs, z]
    exact fl32_nonneg t (hs ▸ h)
  · rcases lt_or_le t 0 with ht | ht
    · have := fl32_mono_pos (-t) (-s) (by linarith) (by linarith)
      rw [fl32_neg, fl32_neg] at this
      linarith
    · have h1 := fl32_nonneg (-s) (by linarith)
      rw [fl32_neg] at h1
      have h2 := fl32_nonneg t ht
      linarith

/-! ## The loop of `hash_grid_query_next` -/

theorem body_of_lt (q : hash_grid_query_t) (h : q.cell_index < q.cell_end) (i : Int)
    (hr : array_read q.grid.point_ids q.cell_index = some i) :
    hash_grid_query_next_body q = Step.yield { q with cell_index := q.cell_index + 1 } i := by
  simp only [hash_grid_query_next_body, h, if_true, hr]

theorem body_of_ge (q : hash_grid_query_t) (h : q.cell_end ≤ q.cell_index) :
    hash_grid_query_next_body q =
      if (cursor_advance q).z > (cursor_advance q).z_end then Step.done (cursor_advance q)
      else
        match hash_grid_index q.grid (cursor_advance q).x (cursor_advance q).y
            (cursor_advance q).z with
        | none => Step.fault
        | some cell =>
          match array_read q.grid.cell_starts cell, array_read q.grid.cell_ends cell with
          | some s, some e =>
            Step.load { cursor_advance q with cell_index := s, cell_end := e } cell
          | _, _ => Step.fault := by
  have h' : ¬ q.cell_index < q.cell_end := not_lt.mpr h
  simp only [hash_grid_query_next_body, h', if_false, cursor_advance]
  split_ifs <;> rfl

theorem cursor_advance_fixed (q : hash_grid_query_t) :
    (cursor_advance q).x_start = q.x_start ∧ (cursor_advance q).y_start = q.y_start ∧
    (cursor_advance q).z_start = q.z_start ∧ (cursor_advance q).x_end = q.x_end ∧
    (cursor_advance q).y_end = q.y_end ∧ (cursor_advance q).z_end = q.z_end ∧
    (cursor_advance q).grid = q.grid ∧ (cursor_advance q).cell_index = q.cell_index ∧
    (cursor_advance q).cell_end = q.cell_end := by
  simp only [cursor_advance]
  split_ifs <;> simp

theorem body_load_inv (q q' : hash_grid_query_t) (c : Int)
    (h : hash_grid_query_next_body q = Step.load q' c) :
    q.cell_end ≤ q.cell_index ∧ (cursor_advance q).z ≤ q.z_end ∧
    hash_grid_index q.grid (cursor_advance q).x (cursor_advance q).y (cursor_advance q).z
      = some c ∧
    ∃ s e, array_read q.grid.cell_starts c = some s ∧ array_read q.grid.cell_ends c = some e ∧
      q' = { cursor_advance q with cell_index := s, cell_end := e } := by
  by_cases hlt : q.cell_index < q.cell_end
  · simp only [hash_grid_query_next_body, hlt, if_true] at h
    split at h <;> simp at h
  · have hge : q.cell_end ≤ q.cell_index := not_lt.mp hlt
    rw [body_of_ge q hge] at h
    have hz := (cursor_advance_fixed q).2.2.2.2.2.1
    split_ifs at h with hz'
    rw [hz] at hz'
    refine ⟨hge, not_lt.mp hz', ?_⟩
    split at h
    · simp at h
    · rename_i cell hc
      split at h
      · rename_i s e hs he
        simp only [Step.load.injEq] at h
        obtain ⟨h1, h2⟩ := h
        subst h2
        exact ⟨hc, s, e, hs, he, h1.symm⟩
      · simp at h

theorem budget_arith (Z Y X Z' Y' X' WY WX : Nat)
    (h : (Z = Z' + 1 ∧ Y' + 1 = WY ∧ (X' < X ∨ X' < WX)) ∨
         (Z = Z' ∧ Y = Y' + 1 ∧ X' < WX) ∨
         (Z = Z' ∧ Y = Y' ∧ X' < X)) :
    (Z' * WY + Y') * WX + X' + 1 < (Z * WY + Y) * WX + X + 1 := by
  rcases h with ⟨rfl, rfl, h⟩ | ⟨rfl, rfl, h⟩ | ⟨rfl, rfl, h⟩
  · have e : ((Z' + 1) * (Y' + 1) + Y) * WX = (Z' * (Y' + 1) + Y') * WX + WX + Y * WX := by
      ring
    rw [e]
    have : 0 ≤ Y * WX := Nat.zero_le _
    omega
  · have e : (Z * WY + (Y' + 1)) * WX = (Z * WY + Y') * WX + WX := by ring
    rw [e]
    omega
  · omega

theorem loop_budget_load (q q' : hash_grid_query_t) (c : Int)
    (h : hash_grid_query_next_body q = Step.load q' c) : loop_budget q' < loop_budget q := by
  obtain ⟨-, hz, -, s, e, -, -, rfl⟩ := body_load_inv q q' c h
  obtain ⟨e1, e2, -, e4, e5, e6, -, -, -⟩ := cursor_advance_fixed q
  unfold loop_budget
  dsimp only
  rw [e1, e2, e4, e5, e6]
  apply budget_arith
  revert hz
  simp only [cursor_advance]
  split_ifs with h1 h2 h2 <;> dsimp only at * <;> intro hz <;> omega

theorem loop_budget_enough (n : Nat) : ∀ (q : hash_grid_query_t), loop_budget q ≤ n →
    hash_grid_query_next_loop n q ≠ Outcome.timeout := by
  induction n with
  | zero => intro q h; unfold loop_budget at h; omega
  | succ n ih =>
    intro q h
    simp only [hash_grid_query_next_loop]
    cases hb : hash_grid_query_next_body q with
    | yield q1 i => simp
    | done q1 => simp
    | fault => simp
    | load q1 c =>
      have := loop_budget_load q q1 c hb
      exact ih q1 (by omega)

/-- The loop of `hash_grid_query_next` returns within its budget, for every
query state. -/
theorem hash_grid_query_next_loop_budget (q : hash_grid_query_t) :
    hash_grid_query_next q ≠ Outcome.timeout :=
  loop_budget_enough _ q le_rfl

theorem next_of_done (q q' : hash_grid_query_t)
    (h : hash_grid_query_next_body q = Step.done q') :
    hash_grid_query_next q = Outcome.done q' := by
  have : loop_budget q = (loop_budget q - 1) + 1 := by unfold loop_budget; omega
  rw [hash_grid_query_next, this, hash_grid_query_next_loop, h]

theorem next_of_fault (q : hash_grid_query_t)
    (h : hash_grid_query_next_body q = Step.fault) :
    hash_grid_query_next q = Outcome.fault := by
  have : loop_budget q = (loop_budget q - 1) + 1 := by unfold loop_budget; omega
  rw [hash_grid_query_next, this, hash_grid_query_next_loop, h]

theorem array_read_eq (a : List Int) (i : Int) (h0 : 0 ≤ i) (h1 : i < a.length) :
    ∃ v, array_read a i = some v ∧ a[i.toNat]? = some v := by
  have : i.toNat < a.length := by omega
  refine ⟨a[i.toNat], ?_, ?_⟩
  · simp only [array_read, h0, if_true]
    exact List.getElem?_eq_getElem this
  · exact List.getElem?_eq_getElem this

theorem advance_z (q : hash_grid_query_t) (h1 : q.x_end < q.x + 1) (h2 : q.y_end < q.y + 1) :
    (cursor_advance q).x = q.x_start ∧ (cursor_advance q).y = q.y_start ∧
      (cursor_advance q).z = q.z + 1 := by
  simp only [cursor_advance]
  split_ifs <;> dsimp only at * <;> omega

theorem int_cast_mono (a b : ℚ) (h : a ≤ b) : int_cast a ≤ int_cast b := by
  unfold int_cast
  split_ifs with ha hb hb
  · exact Int.floor_mono h
  · exact absurd (le_trans ha h) hb
  · have h1 : ⌈a⌉ ≤ 0 := Int.ceil_le.mpr (by push_cast; exact le_of_lt (not_le.mp ha))
    have h2 : 0 ≤ ⌊b⌋ := Int.floor_nonneg.mpr hb
    exact le_trans h1 h2
  · exact Int.ceil_mono h

/-- What a successful `hash_grid_query` returns, field by field. -/
theorem hash_grid_query_some (g : HashGrid) (pos : vec3) (r : ℚ) (q : hash_grid_query_t)
    (h : hash_grid_query g pos r = some q) :
    q.grid = g ∧
    q.x_start = int_cast ((pos.x - r) * g.cell_width_inv) ∧
    q.y_start = int_cast ((pos.y - r) * g.cell_width_inv) ∧
    q.z_start = int_cast ((pos.z - r) * g.cell_width_inv) ∧
    q.x_end = min (int_cast ((pos.x + r) * g.cell_width_inv)) (q.x_start + g.dim_x - 1) ∧
    q.y_end = min (int_cast ((pos.y + r) * g.cell_width_inv)) (q.y_start + g.dim_y - 1) ∧
    q.z_end = min (int_cast ((pos.z + r) * g.cell_width_inv)) (q.z_start + g.dim_z - 1) ∧
    q.x = q.x_start ∧ q.y = q.y_start ∧ q.z = q.z_start ∧
    ∃ c, hash_grid_index g q.x_start q.y_start q.z_start = some c ∧
      array_read g.cell_starts c = some q.cell_index ∧
      array_read g.cell_ends c = some q.cell_end := by
  revert h
  unfold hash_grid_query
  dsimp only
  generalize int_cast ((pos.x - r) * g.cell_width_inv) = xs
  generalize int_cast ((pos.y - r) * g.cell_width_inv) = ys
  generalize int_cast ((pos.z - r) * g.cell_width_inv) = zs
  generalize int_cast ((pos.x + r) * g.cell_width_inv) = xe
  generalize int_cast ((pos.y + r) * g.cell_width_inv) = ye
  generalize int_cast ((pos.z + r) * g.cell_width_inv) = ze
  intro h
  cases hc : hash_grid_index g xs ys zs with
  | none => rw [hc] at h; simp at h
  | some c =>
    rw [hc] at h
    dsimp only at h
    cases hs : array_read g.cell_starts c with
    | none => rw [hs] at h; simp at h
    | some s =>
      cases he : array_read g.cell_ends c with
      | none => rw [hs, he] at h; simp at h
      | some e =>
        rw [hs, he] at h
        simp only [Option.some.injEq] at h
        subst h
        exact ⟨rfl, rfl, rfl, rfl, rfl, rfl, rfl, rfl, rfl, rfl, c, hc, hs, he⟩

/-- What the binary32 reading of `hash_grid_query` returns, and when: the
state is returned exactly when the start corner passes the assertions of
`hash_grid_index` and the reads of both cell arrays succeed. -/
theorem hash_grid_query_f32_spec (g : HashGrid) (pos : vec3) (r : ℚ) (q : hash_grid_query_t) :
    hash_grid_query_f32 g pos r = some q ↔
      (q.grid = g ∧
      q.x_start = int_cast (float_mul (float_sub pos.x r) g.cell_width_inv) ∧
      q.y_start = int_cast (float_mul (float_sub pos.y r) g.cell_width_inv) ∧
      q.z_start = int_cast (float_mul (float_sub pos.z r) g.cell_width_inv) ∧
      q.x_end = min (int_cast (float_mul (float_add pos.x r) g.cell_width_inv))
        (q.x_start + g.dim_x - 1) ∧
      q.y_end = min (int_cast (float_mul (float_add pos.y r) g.cell_width_inv))
        (q.y_start + g.dim_y - 1) ∧
      q.z_end = min (int_cast (float_mul (float_add pos.z r) g.cell_width_inv))
        (q.z_start + g.dim_z - 1) ∧
      q.x = q.x_start ∧ q.y = q.y_start ∧ q.z = q.z_start ∧
      ∃ c, hash_grid_index g q.x_start q.y_start q.z_start = some c ∧
        array_read g.cell_starts c = some q.cell_index ∧
        array_read g.cell_ends c = some q.cell_end) := by
  constructor
  · intro h
    revert h
    unfold hash_grid_query_f32
    dsimp only
    generalize int_cast (float_mul (float_sub pos.x r) g.cell_width_inv) = xs
    generalize int_cast (float_mul (float_sub pos.y r) g.cell_width_inv) = ys
    generalize int_cast (float_mul (float_sub pos.z r) g.cell_width_inv) = zs
    generalize int_cast (float_mul (float_add pos.x r) g.cell_width_inv) = xe
    generalize int_cast (float_mul (float_add pos.y r) g.cell_width_inv) = ye
    generalize int_cast (float_mul (float_add pos.z r) g.cell_width_inv) = ze
    intro h
    cases hc : hash_grid_index g xs ys zs with
    | none => rw [hc] at h; simp at h
    | some c =>
      rw [hc] at h
      dsimp only at h
      cases hs : array_read g.cell_starts c with
      | none => rw [hs] at h; simp at h
      | some s =>
        cases he : array_read g.cell_ends c with
        | none => rw [hs, he] at h; simp at h
        | some e =>
          rw [hs, he] at h
          simp only [Option.some.injEq] at h
          subst h
          exact ⟨rfl, rfl, rfl, rfl, rfl, rfl, rfl, rfl, rfl, rfl, c, hc, hs, he⟩
  · rintro ⟨hg, s1, s2, s3, e1, e2, e3, c1, c2, c3, c, hc, hs, he⟩
    unfold hash_grid_query_f32
    dsimp only
    rw [← s1, ← s2, ← s3, ← e1, ← e2, ← e3, hc]
    dsimp only
    rw [hs, he]
    dsimp only
    congr 1
    cases q
    simp only [hash_grid_query_t.mk.injEq] at *
    simp only [hg, c1, c2, c3, and_self]

theorem hash_grid_index_some_ge (g : HashGrid) (x y z c : Int)
    (h : hash_grid_index g x y z = some c) : -origin ≤ x ∧ -origin ≤ y ∧ -origin ≤ z := by
  by_contra hn
  rw [hash_grid_index_none g x y z (by omega)] at h
  simp at h

/-- When `hash_grid_query` produces a state: on a valid grid, exactly when the
start corner of the box passes the assertions of `hash_grid_index`. -/
theorem hash_grid_query_produced (g : HashGrid) (hv : valid_grid g) (pos : vec3) (r : ℚ) :
    (∃ q, hash_grid_query g pos r = some q) ↔
      (-2 ^ 24 ≤ int_cast ((pos.x - r) * g.cell_width_inv) ∧
       -2 ^ 24 ≤ int_cast ((pos.y - r) * g.cell_width_inv) ∧
       -2 ^ 24 ≤ int_cast ((pos.z - r) * g.cell_width_inv)) := by
  constructor
  · rintro ⟨q, hq⟩
    obtain ⟨-, s1, s2, s3, -, -, -, -, -, -, c, hc, -⟩ := hash_grid_query_some g pos r q hq
    rw [s1, s2, s3] at hc
    exact hash_grid_index_some_ge g _ _ _ c hc
  · rintro ⟨o1, o2, o3⟩
    obtain ⟨kx, hkx⟩ := hv.dim_x_pow2
    obtain ⟨ky, hky⟩ := hv.dim_y_pow2
    obtain ⟨kz, hkz⟩ := hv.dim_z_pow2
    obtain ⟨c, hc, hc0, hc1⟩ := hash_grid_index_in_range g kx ky kz hkx hky hkz
      hv.cells_fit _ _ _ o1 o2 o3
    obtain ⟨s, hs, -⟩ := array_read_eq g.cell_starts c hc0
      (by rw [hv.cell_starts_length]; exact hc1)
    obtain ⟨e, he, -⟩ := array_read_eq g.cell_ends c hc0
      (by rw [hv.cell_ends_length]; exact hc1)
    unfold hash_grid_query
    dsimp only
    rw [hc]
    dsimp only
    rw [hs, he]
    exact ⟨_, rfl⟩

/-! ## Membership in the emitted sequence -/

theorem emod_inj_period (d a b : Int) (h : (a + origin) % d = (b + origin) % d)
    (h1 : a - b < d) (h2 : b - a < d) : a = b := by
  have hd : d ∣ (b + origin) - (a + origin) :=
    Int.ModEq.dvd (show a + origin ≡ b + origin [ZMOD d] from h)
  have e : (b + origin) - (a + origin) = b - a := by ring
  rw [e] at hd
  have := Int.eq_zero_of_dvd_of_natAbs_lt_natAbs hd (by omega)
  omega

/-- The fold is injective on one period: two virtual cells that differ by less
than the grid dimension on every axis and get the same physical cell are
equal. -/
theorem hash_grid_index_inj_period (g : HashGrid) (kx ky kz : Nat)
    (hx : g.dim_x = 2 ^ kx) (hy : g.dim_y = 2 ^ ky) (hz : g.dim_z = 2 ^ kz)
    (hfit : g.dim_x * g.dim_y * g.dim_z < 2 ^ 31)
    (x y z x1 y1 z1 c : Int)
    (h : hash_grid_index g x y z = some c) (h1 : hash_grid_index g x1 y1 z1 = some c)
    (px : x - x1 < g.dim_x) (px1 : x1 - x < g.dim_x)
    (py : y - y1 < g.dim_y) (py1 : y1 - y < g.dim_y)
    (pz : z - z1 < g.dim_z) (pz1 : z1 - z < g.dim_z) :
    x = x1 ∧ y = y1 ∧ z = z1 := by
  have dx : (0 : Int) < g.dim_x := hx ▸ pow2_pos kx
  have dy : (0 : Int) < g.dim_y := hy ▸ pow2_pos ky
  have dz : (0 : Int) < g.dim_z := hz ▸ pow2_pos kz
  obtain ⟨o1, o2, o3⟩ := hash_grid_index_some_ge g x y z c h
  obtain ⟨o4, o5, o6⟩ := hash_grid_index_some_ge g x1 y1 z1 c h1
  rw [hash_grid_index_eq g kx ky kz hx hy hz hfit x y z o1 o2 o3] at h
  rw [hash_grid_index_eq g kx ky kz hx hy hz hfit x1 y1 z1 o4 o5 o6, ← h] at h1
  obtain ⟨ex, ey, ez⟩ := cell_id_inj g.dim_x g.dim_y _ _ _ _ _ _
    (Int.emod_nonneg _ dx.ne') (Int.emod_lt_of_pos _ dx)
    (Int.emod_nonneg _ dx.ne') (Int.emod_lt_of_pos _ dx)
    (Int.emod_nonneg _ dy.ne') (Int.emod_lt_of_pos _ dy)
    (Int.emod_nonneg _ dy.ne') (Int.emod_lt_of_pos _ dy) (Option.some.inj h1)
  exact ⟨(emod_inj_period _ _ _ ex px1 px).symm, (emod_inj_period _ _ _ ey py1 py).symm,
    (emod_inj_period _ _ _ ez pz1 pz).symm⟩

theorem int_cast_lt (t : ℚ) : (int_cast t : ℚ) < t + 1 := by
  unfold int_cast
  split_ifs with h
  · have := Int.floor_le t
    linarith
  · exact Int.ceil_lt_add_one t

theorem int_cast_gt (t : ℚ) : t - 1 < (int_cast t : ℚ) := by
  unfold int_cast
  split_ifs with h
  · exact Int.sub_one_lt_floor t
  · have := Int.le_ceil t
    linarith

theorem body_yield_inv (q q1 : hash_grid_query_t) (i : Int)
    (h : hash_grid_query_next_body q = Step.yield q1 i) :
    q1 = { q with cell_index := q.cell_index + 1 } := by
  by_cases hlt : q.cell_index < q.cell_end
  · simp only [hash_grid_query_next_body, hlt, if_true] at h
    split at h
    · simp at h
    · simp only [Step.yield.injEq] at h
      exact h.1.symm
  · rw [body_of_ge q (not_lt.mp hlt)] at h
    split_ifs at h
    split at h
    · simp at h
    · split at h <;> simp at h

theorem body_done_inv (q q1 : hash_grid_query_t)
    (h : hash_grid_query_next_body q = Step.done q1) : q1 = cursor_advance q := by
  by_cases hlt : q.cell_index < q.cell_end
  · simp only [hash_grid_query_next_body, hlt, if_true] at h
    split at h <;> simp at h
  · rw [body_of_ge q (not_lt.mp hlt)] at h
    split_ifs at h
    · simp only [Step.done.injEq] at h
      exact h.symm
    · split at h
      · simp at h
      · split at h <;> simp at h

theorem cursor_advance_lt (q : hash_grid_query_t) :
    cursor_lt q.x q.y q.z (cursor_advance q).x (cursor_advance q).y (cursor_advance q).z := by
  simp only [cursor_advance, cursor_lt]
  split_ifs <;> dsimp only at * <;> omega

theorem cursor_advance_bounds (q : hash_grid_query_t) (dx dy : Int) (hdx : 1 ≤ dx)
    (hdy : 1 ≤ dy) (cx : q.x_end ≤ q.x_start + dx - 1) (cy : q.y_end ≤ q.y_start + dy - 1)
    (lx : q.x_start ≤ q.x) (ly : q.y_start ≤ q.y) (lz : q.z_start ≤ q.z) :
    q.x_start ≤ (cursor_advance q).x ∧ (cursor_advance q).x ≤ q.x_start + dx - 1 ∧
    q.y_start ≤ (cursor_advance q).y ∧
    (cursor_advance q).y ≤ q.y_start + dy - 1 ∧
    q.z_start ≤ (cursor_advance q).z := by
  simp only [cursor_advance]
  split_ifs <;> dsimp only at * <;> omega

/-- The cells loaded from a state whose cursor is not below the start corner:
they are pairwise different, and every one is the physical cell of a virtual
cell of the period box that comes after the cursor in row-major order. -/
theorem loaded_cells_spec (g : HashGrid) (kx ky kz : Nat)
    (hx : g.dim_x = 2 ^ kx) (hy : g.dim_y = 2 ^ ky) (hz : g.dim_z = 2 ^ kz)
    (hfit : g.dim_x * g.dim_y * g.dim_z < 2 ^ 31) (q0 : hash_grid_query_t)
    (cx : q0.x_end ≤ q0.x_start + g.dim_x - 1) (cy : q0.y_end ≤ q0.y_start + g.dim_y - 1)
    (cz : q0.z_end ≤ q0.z_start + g.dim_z - 1) (fuel : Nat) :
    ∀ q : hash_grid_query_t, q.grid = g → q.x_start = q0.x_start → q.y_start = q0.y_start →
      q.z_start = q0.z_start → q.x_end = q0.x_end → q.y_end = q0.y_end → q.z_end = q0.z_end →
      q0.x_start ≤ q.x → q0.y_start ≤ q.y → q0.z_start ≤ q.z →
      (loaded_cells fuel q).Nodup ∧
      ∀ c ∈ loaded_cells fuel q, ∃ x y z, cursor_lt q.x q.y q.z x y z ∧
        q0.x_start ≤ x ∧ x ≤ q0.x_start + g.dim_x - 1 ∧
        q0.y_start ≤ y ∧ y ≤ q0.y_start + g.dim_y - 1 ∧
        q0.z_start ≤ z ∧ z ≤ q0.z_start + g.dim_z - 1 ∧
        hash_grid_index g x y z = some c := by
  have dx : (1 : Int) ≤ g.dim_x := by have := pow2_pos kx; omega
  have dy : (1 : Int) ≤ g.dim_y := by have := pow2_pos ky; omega
  induction fuel with
  | zero =>
    intro q _ _ _ _ _ _ _ _ _ _
    simp [loaded_cells]
  | succ n ih =>
    intro q hg b1 b2 b3 b4 b5 b6 lx ly lz
    have hlt := cursor_advance_lt q
    obtain ⟨a1, a2, a3, a4, a5⟩ := cursor_advance_bounds q g.dim_x g.dim_y dx dy
      (by omega) (by omega) (by omega) (by omega) (by omega)
    obtain ⟨f1, f2, f3, f4, f5, f6, f7, -, -⟩ := cursor_advance_fixed q
    simp only [loaded_cells]
    cases hb : hash_grid_query_next_body q with
    | fault => simp
    | yield q1 i =>
      have := body_yield_inv q q1 i hb
      subst this
      exact ih _ hg b1 b2 b3 b4 b5 b6 lx ly lz
    | done q1 =>
      have := body_done_inv q q1 hb
      subst this
      obtain ⟨n1, n2⟩ := ih (cursor_advance q) (by rw [f7, hg]) (by omega) (by omega)
        (by omega) (by omega) (by omega) (by omega) (by omega) (by omega) (by omega)
      refine ⟨n1, fun c hc => ?_⟩
      obtain ⟨x, y, z, l, r⟩ := n2 c hc
      refine ⟨x, y, z, ?_, r⟩
      unfold cursor_lt at l hlt ⊢
      omega
    | load q1 c =>
      obtain ⟨-, hzle, hc, s, e, -, -, rfl⟩ := body_load_inv q q1 c hb
      obtain ⟨n1, n2⟩ := ih { cursor_advance q with cell_index := s, cell_end := e }
        (by show (cursor_advance q).grid = g; rw [f7, hg])
        (by show (cursor_advance q).x_start = _; omega)
        (by show (cursor_advance q).y_start = _; omega)
        (by show (cursor_advance q).z_start = _; omega)
        (by show (cursor_advance q).x_end = _; omega)
        (by show (cursor_advance q).y_end = _; omega)
        (by show (cursor_advance q).z_end = _; omega)
        (by show _ ≤ (cursor_advance q).x; omega)
        (by show _ ≤ (cursor_advance q).y; omega)
        (by show _ ≤ (cursor_advance q).z; omega)
      dsimp only at n2 ⊢
      rw [hg] at hc
      refine ⟨List.nodup_cons.mpr ⟨fun hmem => ?_, n1⟩, fun c1 hc1 => ?_⟩
      · obtain ⟨x, y, z, l, r1, r2, r3, r4, r5, r6, r7⟩ := n2 c hmem
        obtain ⟨ex, ey, ez⟩ := hash_grid_index_inj_period g kx ky kz hx hy hz hfit _ _ _ x y z c
          hc r7
          (by omega) (by omega) (by omega) (by omega) (by omega) (by omega)
        unfold cursor_lt at l
        omega
      · rcases List.mem_cons.mp hc1 with rfl | hmem
        · exact ⟨_, _, _, hlt, by omega, by omega, by omega, by omega, by omega, by omega, hc⟩
        · obtain ⟨x, y, z, l, r⟩ := n2 c1 hmem
          refine ⟨x, y, z, ?_, r⟩
          unfold cursor_lt at l hlt ⊢
          omega

/-- The cell loaded for the start corner followed by the cells loaded by the
calls of `hash_grid_query_next` never holds a physical cell twice, when the
cursor is at the start corner and the box spans at most one period. -/
theorem loaded_cells_fresh (g : HashGrid) (kx ky kz : Nat)
    (hx : g.dim_x = 2 ^ kx) (hy : g.dim_y = 2 ^ ky) (hz : g.dim_z = 2 ^ kz)
    (hfit : g.dim_x * g.dim_y * g.dim_z < 2 ^ 31)
    (q : hash_grid_query_t) (hg : q.grid = g)
    (cx : q.x_end ≤ q.x_start + g.dim_x - 1) (cy : q.y_end ≤ q.y_start + g.dim_y - 1)
    (cz : q.z_end ≤ q.z_start + g.dim_z - 1)
    (c1 : q.x = q.x_start) (c2 : q.y = q.y_start) (c3 : q.z = q.z_start)
    (c0 : Int) (hc0 : hash_grid_index g q.x_start q.y_start q.z_start = some c0) (fuel : Nat) :
    (c0 :: loaded_cells fuel q).Nodup := by
  have dx : (1 : Int) ≤ g.dim_x := by have := pow2_pos kx; omega
  have dy : (1 : Int) ≤ g.dim_y := by have := pow2_pos ky; omega
  have dz : (1 : Int) ≤ g.dim_z := by have := pow2_pos kz; omega
  obtain ⟨n1, n2⟩ := loaded_cells_spec g kx ky kz hx hy hz hfit q cx cy cz fuel q hg rfl rfl rfl
    rfl rfl rfl (by omega) (by omega) (by omega)
  refine List.nodup_cons.mpr ⟨fun hmem => ?_, n1⟩
  obtain ⟨x, y, z, l, r1, r2, r3, r4, r5, r6, r7⟩ := n2 c0 hmem
  obtain ⟨ex, ey, ez⟩ := hash_grid_index_inj_period g kx ky kz hx hy hz hfit _ _ _ x y z c0 hc0
    r7 (by omega) (by omega) (by omega) (by omega) (by omega) (by omega)
  unfold cursor_lt at l
  omega

theorem array_read_replicate (n : Nat) (c : Int) (h0 : 0 ≤ c) (h1 : c.toNat < n) :
    array_read (List.replicate n 0) c = some 0 := by
  unfold array_read
  rw [if_pos h0, List.getElem?_replicate, if_pos h1]

theorem array_read_replicate_zero (n : Nat) (c v : Int)
    (h : array_read (List.replicate n 0) c = some v) : v = 0 := by
  unfold array_read at h
  split_ifs at h
  rw [List.getElem?_replicate] at h
  split_ifs at h
  exact (Option.some.inj h).symm

/-! ## The example grid -/

theorem grid_alias_valid : valid_grid grid_alias where
  cell_width_inv_nonneg := by show (0 : ℚ) ≤ 1; norm_num
  dim_x_pow2 := ⟨1, rfl⟩
  dim_y_pow2 := ⟨1, rfl⟩
  dim_z_pow2 := ⟨1, rfl⟩
  cells_fit := by decide
  num_points_eq := rfl
  cell_starts_length := rfl
  cell_ends_length := rfl
  ranges := by
    intro c s e hs he
    unfold array_read at hs he
    split_ifs at hs he with h0
    obtain ⟨n, rfl⟩ := Int.eq_ofNat_of_zero_le h0
    simp only [grid_alias, Int.toNat_ofNat] at hs he ⊢
    rcases n with _ | _ | _ | _ | _ | _ | _ | _ | n <;> simp at hs he <;> omega

/-- The aliasing scenario, evaluated: the query of radius `0.1` around the first
point yields both points. -/
theorem drain_query_alias_near : drain query_alias_near = Drain.finished [0, 1] := by
  decide!

/-- The large-radius scenario, evaluated: the box `[0, 1]³` yields every point
once. -/
theorem drain_query_alias_wide : drain query_alias_wide = Drain.finished [0, 1] := by
  decide!

/-! ## The binary32 reading of the query -/

/-- Truncation toward zero is the floor, except on negative non-integers,
where it is the floor plus one. -/
theorem int_cast_eq_floor (v : ℚ) :
    int_cast v = ⌊v⌋ + (if v < 0 ∧ (⌊v⌋ : ℚ) ≠ v then 1 else 0) := by
  unfold int_cast
  by_cases h0 : 0 ≤ v
  · rw [if_pos h0, if_neg (fun h => absurd h.1 (not_lt.mpr h0)), add_zero]
  · rw [if_neg h0]
    by_cases hi : (⌊v⌋ : ℚ) = v
    · rw [if_neg (fun h => h.2 hi), add_zero, Int.ceil_eq_iff]
      constructor
      · rw [hi]; linarith
      · rw [hi]
    · rw [if_pos ⟨not_le.mp h0, hi⟩, Int.ceil_eq_iff]
      have h1 : (⌊v⌋ : ℚ) < v := lt_of_le_of_ne (Int.floor_le v) hi
      have h2 := Int.lt_floor_add_one v
      push_cast
      constructor <;> linarith

theorem query_alias_wide_eq_f32 :
    hash_grid_query_f32 grid_alias ⟨1/2, 1/2, 1/2⟩ 1 = some query_alias_wide := by
  decide!

theorem body_load_of (q : hash_grid_query_t) (hsp : q.cell_end ≤ q.cell_index)
    (hz : (cursor_advance q).z ≤ (cursor_advance q).z_end) (c s e : Int)
    (hc : hash_grid_index q.grid (cursor_advance q).x (cursor_advance q).y (cursor_advance q).z
      = some c)
    (hs : array_read q.grid.cell_starts c = some s)
    (he : array_read q.grid.cell_ends c = some e) :
    hash_grid_query_next_body q
      = Step.load { cursor_advance q with cell_index := s, cell_end := e } c := by
  rw [body_of_ge q hsp, if_neg (not_lt.mpr hz), hc]
  dsimp only
  rw [hs, he]

theorem loaded_cells_load (fuel : Nat) (q q1 : hash_grid_query_t) (c : Int)
    (hb : hash_grid_query_next_body q = Step.load q1 c) :
    loaded_cells (fuel + 1) q = c :: loaded_cells fuel q1 := by
  rw [loaded_cells, hb]

theorem loaded_cells_zero (q : hash_grid_query_t) : loaded_cells 0 q = [] := rfl

/-- The cells of `grid_huge` loaded for the box of `query_huge`: the pass that
follows the start cell `0` loads the cell of `(0, 0, 1)`, which is `0` again. -/
theorem loaded_cells_query_huge : loaded_cells 1 query_huge = [0] := by
  obtain ⟨a1, a2, a3⟩ := advance_z query_huge (by decide) (by decide)
  obtain ⟨-, -, -, -, -, e6, e7, -, -⟩ := cursor_advance_fixed query_huge
  have hb := body_load_of query_huge (by decide) (by rw [a3, e6]; decide) 0 0 0
    (by rw [a1, a2, a3]; decide!)
    (array_read_replicate 8589934592 0 (by decide) (by decide))
    (array_read_replicate 8589934592 0 (by decide) (by decide))
  rw [loaded_cells_load 0 query_huge _ 0 hb, loaded_cells_zero]

theorem query_huge_eq :
    hash_grid_query_f32 grid_huge ⟨1/2, 1/2, 7/8⟩ (1/4) = some query_huge := by
  rw [hash_grid_query_f32_spec]
  refine ⟨rfl, by decide!, by decide!, by decide!, by decide!, by decide!, by decide!, rfl, rfl,
    rfl, 0, by decide!, ?_, ?_⟩
  · exact array_read_replicate 8589934592 0 (by decide) (by decide)
  · exact array_read_replicate 8589934592 0 (by decide) (by decide)

/-! ## Properties of the cell indexer -/

/-- C1, as stated, fails: on the grid with dims `(65536, 65536, 2)`, all powers
of two dividing `2^24`, the cell `(0, 0, 1)` has its biased coordinates within
range, and `hash_grid_index` returns `0`, because `dim_x*dim_y = 2^32` overflows
the 32-bit `int`, whereas the claimed value is `2^32`. -/
theorem hash_grid_index_fold_overflow :
    (grid_huge.dim_x = 2 ^ 16 ∧ grid_huge.dim_y = 2 ^ 16 ∧ grid_huge.dim_z = 2 ^ 1) ∧
    ((0 : Int) + 2 ^ 24 < 2 ^ 31 ∧ (1 : Int) + 2 ^ 24 < 2 ^ 31) ∧
    hash_grid_index grid_huge 0 0 1 = some 0 ∧
    ((1 : Int) % grid_huge.dim_z) * (grid_huge.dim_x * grid_huge.dim_y)
      + ((0 : Int) % grid_huge.dim_y) * grid_huge.dim_x + (0 : Int) % grid_huge.dim_x
      = 4294967296 := by
  decide!

/-- C1, amended: for a grid whose dimensions are powers of two dividing `2^24`
and whose number of cells `dim_x*dim_y*dim_z` is below `2^31`, and virtual
coordinates `x, y, z ≥ -2^24` whose biased value `x + 2^24` does not overflow
the 32-bit `int`, `hash_grid_index` returns
`(z mod dim_z)*(dim_x*dim_y) + (y mod dim_y)*dim_x + (x mod dim_x)` with the
Euclidean remainder: the bias `2^24` followed by the mask `dim-1` leaves the
folded cell unchanged.  (The bias is not reduced to 32 bits in the embedding,
so the proof does not use the last three hypotheses; they keep the statement
within the coordinates for which the embedding follows the code.) -/
theorem hash_grid_index_fold (g : HashGrid) (kx ky kz : Nat)
    (hx : g.dim_x = 2 ^ kx) (hy : g.dim_y = 2 ^ ky) (hz : g.dim_z = 2 ^ kz)
    (hkx : kx ≤ 24) (hky : ky ≤ 24) (hkz : kz ≤ 24)
    (hfit : g.dim_x * g.dim_y * g.dim_z < 2 ^ 31)
    (x y z : Int) (h1 : -2 ^ 24 ≤ x) (h2 : -2 ^ 24 ≤ y) (h3 : -2 ^ 24 ≤ z)
    (_b1 : x + 2 ^ 24 < 2 ^ 31) (_b2 : y + 2 ^ 24 < 2 ^ 31) (_b3 : z + 2 ^ 24 < 2 ^ 31) :
    hash_grid_index g x y z =
      some ((z % g.dim_z) * (g.dim_x * g.dim_y) + (y % g.dim_y) * g.dim_x + x % g.dim_x) :=
  hash_grid_index_mod g kx ky kz hx hy hz hkx hky hkz hfit x y z h1 h2 h3

theorem hash_grid_index_fold_witness :
    (grid_alias.dim_x = 2 ^ 1 ∧ grid_alias.dim_y = 2 ^ 1 ∧ grid_alias.dim_z = 2 ^ 1) ∧
    (1 ≤ 24) ∧ grid_alias.dim_x * grid_alias.dim_y * grid_alias.dim_z < 2 ^ 31 ∧
    (-2 ^ 24 ≤ (-3 : Int) ∧ -2 ^ 24 ≤ (5 : Int) ∧ -2 ^ 24 ≤ (2 : Int)) ∧
    ((-3 : Int) + 2 ^ 24 < 2 ^ 31 ∧ (5 : Int) + 2 ^ 24 < 2 ^ 31 ∧ (2 : Int) + 2 ^ 24 < 2 ^ 31) ∧
    hash_grid_index grid_alias (-3) 5 2 = some 3 :=
  ⟨⟨rfl, rfl, rfl⟩, by decide, by decide, by decide, by decide,
    hash_grid_index_fold grid_alias 1 1 1 rfl rfl rfl (by decide) (by decide) (by decide)
      (by decide) (-3) 5 2 (by decide) (by decide) (by decide) (by decide) (by decide)
      (by decide)⟩

/-- C2, as stated, fails: on the grid with dims `(65536, 65536, 2)` the virtual
cells `(0, 0, 0)` and `(0, 0, 1)` get the same physical cell id, `0`, although
`0` and `1` are not congruent modulo `dim_z = 2`: the product `dim_x*dim_y`
overflows the 32-bit `int`. -/
theorem hash_grid_index_eq_overflow :
    (grid_huge.dim_x = 2 ^ 16 ∧ grid_huge.dim_y = 2 ^ 16 ∧ grid_huge.dim_z = 2 ^ 1) ∧
    ((0 : Int) + 2 ^ 24 < 2 ^ 31 ∧ (1 : Int) + 2 ^ 24 < 2 ^ 31) ∧
    hash_grid_index grid_huge 0 0 0 = some 0 ∧ hash_grid_index grid_huge 0 0 1 = some 0 ∧
    ¬ ((0 : Int) ≡ 1 [ZMOD grid_huge.dim_z]) := by
  decide!

/-- C2, amended: for a grid whose dimensions are powers of two dividing `2^24`
and whose number of cells `dim_x*dim_y*dim_z` is below `2^31`, and virtual cells
with coordinates `≥ -2^24` whose biased values do not overflow the 32-bit
`int`, `hash_grid_index` returns a physical cell id for both, and the two ids
are equal exactly when the coordinates agree modulo `(dim_x, dim_y, dim_z)`.
(The bias is not reduced to 32 bits in the embedding, so the proof does not
use the hypotheses on the biased values; they keep the statement within the
coordinates for which the embedding follows the code.) -/
theorem hash_grid_index_eq_iff (g : HashGrid) (kx ky kz : Nat)
    (hx : g.dim_x = 2 ^ kx) (hy : g.dim_y = 2 ^ ky) (hz : g.dim_z = 2 ^ kz)
    (hkx : kx ≤ 24) (hky : ky ≤ 24) (hkz : kz ≤ 24)
    (hfit : g.dim_x * g.dim_y * g.dim_z < 2 ^ 31)
    (x1 y1 z1 x2 y2 z2 : Int)
    (h1 : -2 ^ 24 ≤ x1) (h2 : -2 ^ 24 ≤ y1) (h3 : -2 ^ 24 ≤ z1)
    (h4 : -2 ^ 24 ≤ x2) (h5 : -2 ^ 24 ≤ y2) (h6 : -2 ^ 24 ≤ z2)
    (_b1 : x1 + 2 ^ 24 < 2 ^ 31) (_b2 : y1 + 2 ^ 24 < 2 ^ 31) (_b3 : z1 + 2 ^ 24 < 2 ^ 31)
    (_b4 : x2 + 2 ^ 24 < 2 ^ 31) (_b5 : y2 + 2 ^ 24 < 2 ^ 31) (_b6 : z2 + 2 ^ 24 < 2 ^ 31) :
    ∃ c1 c2, hash_grid_index g x1 y1 z1 = some c1 ∧ hash_grid_index g x2 y2 z2 = some c2 ∧
      (c1 = c2 ↔
        (x1 ≡ x2 [ZMOD g.dim_x] ∧ y1 ≡ y2 [ZMOD g.dim_y] ∧ z1 ≡ z2 [ZMOD g.dim_z])) := by
  have px : (0 : Int) < g.dim_x := hx ▸ pow2_pos kx
  have py : (0 : Int) < g.dim_y := hy ▸ pow2_pos ky
  refine ⟨_, _, hash_grid_index_mod g kx ky kz hx hy hz hkx hky hkz hfit x1 y1 z1 h1 h2 h3,
    hash_grid_index_mod g kx ky kz hx hy hz hkx hky hkz hfit x2 y2 z2 h4 h5 h6, ?_⟩
  unfold Int.ModEq
  constructor
  · intro h
    exact cell_id_inj g.dim_x g.dim_y _ _ _ _ _ _
      (Int.emod_nonneg _ px.ne') (Int.emod_lt_of_pos _ px)
      (Int.emod_nonneg _ px.ne') (Int.emod_lt_of_pos _ px)
      (Int.emod_nonneg _ py.ne') (Int.emod_lt_of_pos _ py)
      (Int.emod_nonneg _ py.ne') (Int.emod_lt_of_pos _ py) h
  · rintro ⟨a, b, c⟩
    rw [a, b, c]

theorem hash_grid_index_eq_iff_witness :
    (grid_alias.dim_x = 2 ^ 1 ∧ grid_alias.dim_y = 2 ^ 1 ∧ grid_alias.dim_z = 2 ^ 1) ∧
    (1 ≤ 24) ∧ grid_alias.dim_x * grid_alias.dim_y * grid_alias.dim_z < 2 ^ 31 ∧
    (-2 ^ 24 ≤ (0 : Int) ∧ -2 ^ 24 ≤ (2 : Int) ∧ -2 ^ 24 ≤ (-1 : Int)) ∧
    ((0 : Int) + 2 ^ 24 < 2 ^ 31 ∧ (2 : Int) + 2 ^ 24 < 2 ^ 31 ∧ (-1 : Int) + 2 ^ 24 < 2 ^ 31) ∧
    ∃ c1 c2, hash_grid_index grid_alias 0 0 (-1) = some c1 ∧
      hash_grid_index grid_alias 2 0 (-1) = some c2 ∧
      (c1 = c2 ↔
        ((0 : Int) ≡ 2 [ZMOD grid_alias.dim_x] ∧ (0 : Int) ≡ 0 [ZMOD grid_alias.dim_y] ∧
          (-1 : Int) ≡ -1 [ZMOD grid_alias.dim_z])) :=
  ⟨⟨rfl, rfl, rfl⟩, by decide, by decide, by decide, by decide,
    hash_grid_index_eq_iff grid_alias 1 1 1 rfl rfl rfl (by decide) (by decide) (by decide)
      (by decide) 0 0 (-1) 2 0 (-1) (by decide) (by decide) (by decide) (by decide) (by decide)
      (by decide) (by decide) (by decide) (by decide) (by decide) (by decide) (by decide)⟩

/-- C3, as stated, fails: on the grid with dims `(32768, 32768, 4)` the virtual
cell `(1, 1, 3)` passes the three assertions and `hash_grid_index` returns
`-1073709055`, a negative number, because `3 * 2^30` overflows the 32-bit
`int`; a read of `cell_starts` at that id fails. -/
theorem hash_grid_index_range_overflow :
    (grid_big.dim_x = 2 ^ 15 ∧ grid_big.dim_y = 2 ^ 15 ∧ grid_big.dim_z = 2 ^ 2) ∧
    ((1 : Int) + 2 ^ 24 < 2 ^ 31 ∧ (3 : Int) + 2 ^ 24 < 2 ^ 31) ∧
    hash_grid_index grid_big 1 1 3 = some (-1073709055) ∧
    array_read grid_big.cell_starts (-1073709055) = none := by
  decide!

/-- C3, amended: for a grid with power-of-two dimensions whose number of cells
`dim_x*dim_y*dim_z` is below `2^31`, and virtual coordinates `x, y, z ≥ -2^24`
whose biased values do not overflow the 32-bit `int`, the three assertions of
`hash_grid_index` hold and the returned physical cell id lies in
`[0, dim_x*dim_y*dim_z)`; hence it is a valid index into every array of that
length, such as `cell_starts` and `cell_ends`.  (The bias is not reduced to 32
bits in the embedding, so the proof does not use the hypotheses on the biased
values; they keep the statement within the coordinates for which the embedding
follows the code.) -/
theorem hash_grid_index_range (g : HashGrid) (kx ky kz : Nat)
    (hx : g.dim_x = 2 ^ kx) (hy : g.dim_y = 2 ^ ky) (hz : g.dim_z = 2 ^ kz)
    (hfit : g.dim_x * g.dim_y * g.dim_z < 2 ^ 31)
    (x y z : Int) (h1 : -2 ^ 24 ≤ x) (h2 : -2 ^ 24 ≤ y) (h3 : -2 ^ 24 ≤ z)
    (_b1 : x + 2 ^ 24 < 2 ^ 31) (_b2 : y + 2 ^ 24 < 2 ^ 31) (_b3 : z + 2 ^ 24 < 2 ^ 31) :
    ∃ c, hash_grid_index g x y z = some c ∧ 0 ≤ c ∧ c < g.dim_x * g.dim_y * g.dim_z ∧
      ∀ a : List Int, (a.length : Int) = g.dim_x * g.dim_y * g.dim_z →
        ∃ v, array_read a c = some v := by
  obtain ⟨c, hc, hc0, hc1⟩ := hash_grid_index_in_range g kx ky kz hx hy hz hfit x y z h1 h2 h3
  refine ⟨c, hc, hc0, hc1, fun a ha => ?_⟩
  obtain ⟨v, hv, -⟩ := array_read_eq a c hc0 (by rw [ha]; exact hc1)
  exact ⟨v, hv⟩

theorem hash_grid_index_range_witness :
    (grid_alias.dim_x = 2 ^ 1 ∧ grid_alias.dim_y = 2 ^ 1 ∧ grid_alias.dim_z = 2 ^ 1) ∧
    grid_alias.dim_x * grid_alias.dim_y * grid_alias.dim_z < 2 ^ 31 ∧
    (-2 ^ 24 ≤ (-3 : Int) ∧ -2 ^ 24 ≤ (5 : Int) ∧ -2 ^ 24 ≤ (2 : Int)) ∧
    ((-3 : Int) + 2 ^ 24 < 2 ^ 31 ∧ (5 : Int) + 2 ^ 24 < 2 ^ 31 ∧ (2 : Int) + 2 ^ 24 < 2 ^ 31) ∧
    ∃ c, hash_grid_index grid_alias (-3) 5 2 = some c ∧ 0 ≤ c ∧
      c < grid_alias.dim_x * grid_alias.dim_y * grid_alias.dim_z ∧
      ∀ a : List Int, (a.length : Int) = grid_alias.dim_x * grid_alias.dim_y * grid_alias.dim_z →
        ∃ v, array_read a c = some v :=
  ⟨⟨rfl, rfl, rfl⟩, by decide, by decide, by decide,
    hash_grid_index_range grid_alias 1 1 1 rfl rfl rfl (by decide) (-3) 5 2 (by decide)
      (by decide) (by decide) (by decide) (by decide) (by decide)⟩

/-! ## Properties of the query -/

/-- C9, as stated, fails: on the grid with dims `(65536, 65536, 2)` the query
around `(0.5, 0.5, 0.875)` with radius `0.25` has the box of the two virtual
cells `(0, 0, 0)` and `(0, 0, 1)`, within the clamp; `hash_grid_query` loads
physical cell `0`, and the first call of `hash_grid_query_next` loads the cell
of `(0, 0, 1)`, which is `0` again, because `dim_x*dim_y = 2^32` overflows the
32-bit `int`. -/
theorem loaded_cells_repeat :
    (grid_huge.dim_x = 2 ^ 16 ∧ grid_huge.dim_y = 2 ^ 16 ∧ grid_huge.dim_z = 2 ^ 1) ∧
    hash_grid_query_f32 grid_huge ⟨1/2, 1/2, 7/8⟩ (1/4) = some query_huge ∧
    hash_grid_index grid_huge query_huge.x_start query_huge.y_start query_huge.z_start
      = some 0 ∧
    loaded_cells 1 query_huge = [0] ∧
    ¬ ((0 : Int) :: loaded_cells 1 query_huge).Nodup :=
  ⟨by decide!, query_huge_eq, by decide!, loaded_cells_query_huge, by
    rw [loaded_cells_query_huge]; decide⟩

/-- C9, amended: for a query state produced by `hash_grid_query` with any
radius on a grid with power-of-two dimensions and fewer than `2^31` cells, the
physical cell loaded by `hash_grid_query` followed by the cells loaded by the
successive calls of `hash_grid_query_next` (however many passes are run) holds
no physical cell twice, since the clamp keeps the box within one period per
axis. -/
theorem loaded_cells_nodup (g : HashGrid) (kx ky kz : Nat)
    (hx : g.dim_x = 2 ^ kx) (hy : g.dim_y = 2 ^ ky) (hz : g.dim_z = 2 ^ kz)
    (hfit : g.dim_x * g.dim_y * g.dim_z < 2 ^ 31)
    (pos : vec3) (r : ℚ) (q : hash_grid_query_t) (hq : hash_grid_query_f32 g pos r = some q) :
    (q.x_end - q.x_start ≤ g.dim_x - 1 ∧ q.y_end - q.y_start ≤ g.dim_y - 1 ∧
      q.z_end - q.z_start ≤ g.dim_z - 1) ∧
    ∃ c0, hash_grid_index g q.x_start q.y_start q.z_start = some c0 ∧
      ∀ fuel, (c0 :: loaded_cells fuel q).Nodup := by
  obtain ⟨hg, -, -, -, e1, e2, e3, c1, c2, c3, c0, hc0, -, -⟩ :=
    (hash_grid_query_f32_spec g pos r q).mp hq
  have cx : q.x_end ≤ q.x_start + g.dim_x - 1 := by rw [e1]; exact min_le_right _ _
  have cy : q.y_end ≤ q.y_start + g.dim_y - 1 := by rw [e2]; exact min_le_right _ _
  have cz : q.z_end ≤ q.z_start + g.dim_z - 1 := by rw [e3]; exact min_le_right _ _
  exact ⟨⟨by omega, by omega, by omega⟩, c0, hc0, fun fuel =>
    loaded_cells_fresh g kx ky kz hx hy hz hfit q hg cx cy cz c1 c2 c3 c0 hc0 fuel⟩

theorem loaded_cells_nodup_witness :
    (grid_alias.dim_x = 2 ^ 1 ∧ grid_alias.dim_y = 2 ^ 1 ∧ grid_alias.dim_z = 2 ^ 1) ∧
    grid_alias.dim_x * grid_alias.dim_y * grid_alias.dim_z < 2 ^ 31 ∧
    hash_grid_query_f32 grid_alias ⟨1/2, 1/2, 1/2⟩ 1 = some query_alias_wide ∧
    (query_alias_wide.x_end - query_alias_wide.x_start ≤ grid_alias.dim_x - 1 ∧
      query_alias_wide.y_end - query_alias_wide.y_start ≤ grid_alias.dim_y - 1 ∧
      query_alias_wide.z_end - query_alias_wide.z_start ≤ grid_alias.dim_z - 1) ∧
    ∃ c0, hash_grid_index grid_alias query_alias_wide.x_start query_alias_wide.y_start
        query_alias_wide.z_start = some c0 ∧
      ∀ fuel, (c0 :: loaded_cells fuel query_alias_wide).Nodup :=
  ⟨⟨rfl, rfl, rfl⟩, by decide, query_alias_wide_eq_f32,
    loaded_cells_nodup grid_alias 1 1 1 rfl rfl rfl (by decide) ⟨1/2, 1/2, 1/2⟩ 1
      query_alias_wide query_alias_wide_eq_f32⟩

/-- C10, as stated, fails, on two counts.  The conversion is a truncation, not
a floor: for the centre `(0, 0, 0)` and radius `1/2` on `grid_alias` the query
has `x_start = 0`, whereas the floor of `(pos.x - radius) * cell_width_inv =
-1/2` is `-1`.  And the product is a rounded binary32 product, not the exact
one: for `pos.x = 0.7f = 11744051 / 2^24`, radius `0` and `cell_width_inv = 10`
the product `6.99999988...` is rounded to `7` and the query has `x_start = 7`,
whereas the floor of the exact product is `6`. -/
theorem hash_grid_query_x_start_not_floor :
    (∃ q, hash_grid_query_f32 grid_alias ⟨0, 0, 0⟩ (1/2) = some q ∧ q.x_start = 0 ∧
      ⌊((⟨0, 0, 0⟩ : vec3).x - 1/2) * grid_alias.cell_width_inv⌋ = -1) ∧
    (∃ q, hash_grid_query_f32 grid_tenth ⟨11744051 / 16777216, 0, 0⟩ 0 = some q ∧
      q.x_start = 7 ∧
      ⌊((⟨11744051 / 16777216, 0, 0⟩ : vec3).x - 0) * grid_tenth.cell_width_inv⌋ = 6) :=
  ⟨⟨{ x_start := 0, y_start := 0, z_start := 0, x_end := 0, y_end := 0, z_end := 0,
      x := 0, y := 0, z := 0, cell_index := 0, cell_end := 2, grid := grid_alias },
      by decide!, rfl, by decide!⟩,
    ⟨{ x_start := 7, y_start := 0, z_start := 0, x_end := 7, y_end := 0, z_end := 0,
       x := 7, y := 0, z := 0, cell_index := 0, cell_end := 0, grid := grid_tenth },
      by decide!, rfl, by decide!⟩⟩

/-- C10, amended: `hash_grid_query` computes every float operation in
binary32 and converts by truncation toward zero, which is the floor except on
negative non-integers, where it is the floor plus one.  With `vx` the rounded
product of the rounded difference `pos.x - radius` and `cell_width_inv`,
`x_start = ⌊vx⌋` when `vx ≥ 0` or `vx` is an integer and `x_start = ⌊vx⌋ + 1`
otherwise; with `wx` the rounded product of the rounded sum `pos.x + radius`
and `cell_width_inv`, `x_end` is the least of that truncation of `wx` and
`x_start + dim_x - 1`; likewise for `y` and `z`; the cursor is the start
corner; and `cell_index = cell_starts[c]`, `cell_end = cell_ends[c]` for
`c = hash_grid_index(x_start, y_start, z_start)`.  A state with these fields is
what the function returns, and it returns no other.  The statement is for
boxes whose corners convert to `int` and are biased without overflow: rounded
products below `2^31`, those of the start corner below `2^31 - 2^24`, and
dimensions up to `2^24`.  (The embedding does not reduce these operations to
32 bits, so the proof does not use the bounds; they keep the statement within
the coordinates for which the embedding follows the code.) -/
theorem hash_grid_query_truncates (g : HashGrid) (pos : vec3) (r : ℚ)
    (q : hash_grid_query_t)
    (_sx : fl32 (fl32 (pos.x - r) * g.cell_width_inv) < 2 ^ 31 - 2 ^ 24)
    (_sy : fl32 (fl32 (pos.y - r) * g.cell_width_inv) < 2 ^ 31 - 2 ^ 24)
    (_sz : fl32 (fl32 (pos.z - r) * g.cell_width_inv) < 2 ^ 31 - 2 ^ 24)
    (_ex : fl32 (fl32 (pos.x + r) * g.cell_width_inv) < 2 ^ 31)
    (_ey : fl32 (fl32 (pos.y + r) * g.cell_width_inv) < 2 ^ 31)
    (_ez : fl32 (fl32 (pos.z + r) * g.cell_width_inv) < 2 ^ 31)
    (_dx : g.dim_x ≤ 2 ^ 24) (_dy : g.dim_y ≤ 2 ^ 24) (_dz : g.dim_z ≤ 2 ^ 24) :
    hash_grid_query_f32 g pos r = some q ↔
      (q.grid = g ∧
      q.x_start = ⌊fl32 (fl32 (pos.x - r) * g.cell_width_inv)⌋
        + (if fl32 (fl32 (pos.x - r) * g.cell_width_inv) < 0 ∧
            (⌊fl32 (fl32 (pos.x - r) * g.cell_width_inv)⌋ : ℚ)
              ≠ fl32 (fl32 (pos.x - r) * g.cell_width_inv) then 1 else 0) ∧
      q.y_start = ⌊fl32 (fl32 (pos.y - r) * g.cell_width_inv)⌋
        + (if fl32 (fl32 (pos.y - r) * g.cell_width_inv) < 0 ∧
            (⌊fl32 (fl32 (pos.y - r) * g.cell_width_inv)⌋ : ℚ)
              ≠ fl32 (fl32 (pos.y - r) * g.cell_width_inv) then 1 else 0) ∧
      q.z_start = ⌊fl32 (fl32 (pos.z - r) * g.cell_width_inv)⌋
        + (if fl32 (fl32 (pos.z - r) * g.cell_width_inv) < 0 ∧
            (⌊fl32 (fl32 (pos.z - r) * g.cell_width_inv)⌋ : ℚ)
              ≠ fl32 (fl32 (pos.z - r) * g.cell_width_inv) then 1 else 0) ∧
      q.x_end = min (⌊fl32 (fl32 (pos.x + r) * g.cell_width_inv)⌋
          + (if fl32 (fl32 (pos.x + r) * g.cell_width_inv) < 0 ∧
              (⌊fl32 (fl32 (pos.x + r) * g.cell_width_inv)⌋ : ℚ)
                ≠ fl32 (fl32 (pos.x + r) * g.cell_width_inv) then 1 else 0))
        (q.x_start + g.dim_x - 1) ∧
      q.y_end = min (⌊fl32 (fl32 (pos.y + r) * g.cell_width_inv)⌋
          + (if fl32 (fl32 (pos.y + r) * g.cell_width_inv) < 0 ∧
              (⌊fl32 (fl32 (pos.y + r) * g.cell_width_inv)⌋ : ℚ)
                ≠ fl32 (fl32 (pos.y + r) * g.cell_width_inv) then 1 else 0))
        (q.y_start + g.dim_y - 1) ∧
      q.z_end = min (⌊fl32 (fl32 (pos.z + r) * g.cell_width_inv)⌋
          + (if fl32 (fl32 (pos.z + r) * g.cell_width_inv) < 0 ∧
              (⌊fl32 (fl32 (pos.z + r) * g.cell_width_inv)⌋ : ℚ)
                ≠ fl32 (fl32 (pos.z + r) * g.cell_width_inv) then 1 else 0))
        (q.z_start + g.dim_z - 1) ∧
      q.x = q.x_start ∧ q.y = q.y_start ∧ q.z = q.z_start ∧
      ∃ c, hash_grid_index g q.x_start q.y_start q.z_start = some c ∧
        array_read g.cell_starts c = some q.cell_index ∧
        array_read g.cell_ends c = some q.cell_end) := by
  rw [hash_grid_query_f32_spec]
  unfold float_mul float_sub float_add
  simp only [int_cast_eq_floor]

theorem hash_grid_query_truncates_witness :
    (fl32 (fl32 ((0 : ℚ) - 1/2) * grid_alias.cell_width_inv) < 2 ^ 31 - 2 ^ 24 ∧
      fl32 (fl32 ((0 : ℚ) + 1/2) * grid_alias.cell_width_inv) < 2 ^ 31) ∧
    (grid_alias.dim_x ≤ 2 ^ 24 ∧ grid_alias.dim_y ≤ 2 ^ 24 ∧ grid_alias.dim_z ≤ 2 ^ 24) ∧
    ⌊fl32 (fl32 ((0 : ℚ) - 1/2) * grid_alias.cell_width_inv)⌋ = -1 ∧
    query_alias_near.x_start = 0 ∧
    hash_grid_query_f32 grid_alias ⟨0, 0, 0⟩ (1/2) = some query_alias_near :=
  ⟨by decide!, by decide, by decide!, rfl,
    (hash_grid_query_truncates grid_alias ⟨0, 0, 0⟩ (1/2) query_alias_near
      (by decide!) (by decide!) (by decide!) (by decide!) (by decide!) (by decide!)
      (by decide) (by decide) (by decide)).mpr
      ⟨rfl, by decide!, by decide!, by decide!, by decide!, by decide!, by decide!, rfl, rfl,
        rfl, 0, by decide!, by decide!, by decide!⟩⟩

/-! ## Scenarios, evaluated -/

/-- The boundary-walk scenario: the query of radius `1.5` around
`(3.5, 0.5, 0.5)` on `grid_line` covers the cells `x = 2 .. 5` and yields their
points. -/
theorem drain_query_line :
    hash_grid_query grid_line ⟨7/2, 1/2, 1/2⟩ (3/2) = some query_line ∧
      drain query_line = Drain.finished [2, 3, 4, 5] :=
  ⟨by decide!, by decide!⟩

/-- The large-radius scenario: the query of radius `1000` around
`(0.5, 0.5, 0.5)` on `grid_cube` yields 64 indices without a duplicate. -/
theorem drain_query_cube :
    hash_grid_query grid_cube ⟨1/2, 1/2, 1/2⟩ 1000 = some query_cube ∧
      drain query_cube = Drain.finished (box_points query_cube) ∧
      (box_points query_cube).length = 64 ∧ (box_points query_cube).Nodup :=
  ⟨by decide!, by decide!, by decide!, by decide!⟩

/-- The cells loaded while `query_alias_wide` is drained, evaluated: the eight
physical cells, each once. -/
theorem loaded_cells_query_alias_wide :
    loaded_cells 20 query_alias_wide = [1, 2, 3, 4, 5, 6, 7] := by
  decide!

/-! ## Exhaustion -/

theorem body_done_inv2 (q q1 : hash_grid_query_t)
    (h : hash_grid_query_next_body q = Step.done q1) :
    q.cell_end ≤ q.cell_index ∧ q1 = cursor_advance q ∧ q.z_end < (cursor_advance q).z := by
  by_cases hlt : q.cell_index < q.cell_end
  · simp only [hash_grid_query_next_body, hlt, if_true] at h
    split at h <;> simp at h
  · have hge := not_lt.mp hlt
    refine ⟨hge, body_done_inv q q1 h, ?_⟩
    rw [body_of_ge q hge] at h
    have e6 := (cursor_advance_fixed q).2.2.2.2.2.1
    split_ifs at h with hz
    · rw [← e6]; exact hz
    · split at h
      · simp at h
      · split at h <;> simp at h

theorem cursor_advance_z_le (q : hash_grid_query_t) : q.z ≤ (cursor_advance q).z := by
  simp only [cursor_advance]
  split_ifs <;> dsimp only <;> omega

theorem loop_done_exhausted (n : Nat) : ∀ (q q1 : hash_grid_query_t),
    hash_grid_query_next_loop n q = Outcome.done q1 → exhausted q1 := by
  induction n with
  | zero => intro q q1 h; simp [hash_grid_query_next_loop] at h
  | succ n ih =>
    intro q q1 h
    simp only [hash_grid_query_next_loop] at h
    cases hb : hash_grid_query_next_body q with
    | yield q2 i => rw [hb] at h; simp at h
    | fault => rw [hb] at h; simp at h
    | load q2 c => rw [hb] at h; exact ih q2 q1 h
    | done q2 =>
      rw [hb] at h
      simp only [Outcome.done.injEq] at h
      subst h
      obtain ⟨h1, rfl, h3⟩ := body_done_inv2 q q2 hb
      obtain ⟨-, -, -, -, -, e6, -, e8, e9⟩ := cursor_advance_fixed q
      exact ⟨by rw [e6]; exact h3, by rw [e8, e9]; exact h1⟩

/-- The state left by a call that returned `false` is exhausted. -/
theorem next_done_exhausted (q q1 : hash_grid_query_t)
    (h : hash_grid_query_next q = Outcome.done q1) : exhausted q1 :=
  loop_done_exhausted _ q q1 h

/-- A call on an exhausted state moves the cursor, returns `false` and leaves
an exhausted state. -/
theorem next_of_exhausted (q : hash_grid_query_t) (h : exhausted q) :
    hash_grid_query_next q = Outcome.done (cursor_advance q) ∧
      exhausted (cursor_advance q) := by
  obtain ⟨hz, hc⟩ := h
  obtain ⟨-, -, -, -, -, e6, -, e8, e9⟩ := cursor_advance_fixed q
  have hz2 := cursor_advance_z_le q
  refine ⟨next_of_done q _ ?_, by rw [e6]; omega, by rw [e8, e9]; exact hc⟩
  rw [body_of_ge q hc, if_pos (by rw [e6]; omega)]

theorem reachable_exhausted (q1 q2 : hash_grid_query_t) (h1 : exhausted q1)
    (h : Reachable q1 q2) : exhausted q2 := by
  induction h with
  | start => exact h1
  | yield q q3 i _ hn ih =>
    rw [(next_of_exhausted q ih).1] at hn
    simp at hn
  | done q q3 _ hn ih =>
    rw [(next_of_exhausted q ih).1] at hn
    simp only [Outcome.done.injEq] at hn
    subst hn
    exact (next_of_exhausted q ih).2

theorem query_alias_spent_next :
    hash_grid_query_next query_alias_spent = Outcome.done query_alias_done := by
  decide!

theorem query_alias_done_reach : Reachable query_alias_done query_alias_done2 :=
  Reachable.done query_alias_done query_alias_done2 Reachable.start (by decide!)

/-- C11: idempotent exhaustion.  Once a call of `hash_grid_query_next` has
returned `false`, every later call, made on the state left by the call before
it, also returns `false`.  This holds from every state on which a call returns
`false`, in particular from the states reached from `hash_grid_query` on a
valid grid. -/
theorem exhaustion_idempotent (q q1 : hash_grid_query_t)
    (h : hash_grid_query_next q = Outcome.done q1) (q2 : hash_grid_query_t)
    (h2 : Reachable q1 q2) : ∃ q3, hash_grid_query_next q2 = Outcome.done q3 :=
  ⟨_, (next_of_exhausted q2 (reachable_exhausted q1 q2 (next_done_exhausted q q1 h) h2)).1⟩

theorem exhaustion_idempotent_witness :
    hash_grid_query_next query_alias_spent = Outcome.done query_alias_done ∧
    Reachable query_alias_done query_alias_done2 ∧
    ∃ q3, hash_grid_query_next query_alias_done2 = Outcome.done q3 :=
  ⟨query_alias_spent_next, query_alias_done_reach,
    exhaustion_idempotent query_alias_spent query_alias_done query_alias_spent_next
      query_alias_done2 query_alias_done_reach⟩

/-! ## Self-query -/

theorem drain_query_neg : drain query_neg = Drain.finished [0] := by
  decide!

/-! ## Absence of failures -/

theorem valid_grid_sized (g : HashGrid) (hv : valid_grid g) : sized_grid g :=
  ⟨hv.dim_x_pow2, hv.dim_y_pow2, hv.dim_z_pow2, hv.num_points_eq, hv.cell_starts_length,
    hv.cell_ends_length, hv.ranges⟩

theorem cursor_advance_ge (q : hash_grid_query_t) (lx : q.x_start ≤ q.x)
    (ly : q.y_start ≤ q.y) (lz : q.z_start ≤ q.z) :
    q.x_start ≤ (cursor_advance q).x ∧ q.y_start ≤ (cursor_advance q).y ∧
      q.z_start ≤ (cursor_advance q).z := by
  simp only [cursor_advance]
  split_ifs <;> dsimp only at * <;> omega

/-- The cell arrays of a sized grid can be read at the cell of every virtual
cell that passes the assertions. -/
theorem sized_grid_cell (g : HashGrid) (hs : sized_grid g)
    (hfit : g.dim_x * g.dim_y * g.dim_z < 2 ^ 31) (x y z : Int)
    (ox : -origin ≤ x) (oy : -origin ≤ y) (oz : -origin ≤ z) :
    ∃ c s e, hash_grid_index g x y z = some c ∧ array_read g.cell_starts c = some s ∧
      array_read g.cell_ends c = some e ∧ 0 ≤ s ∧ s ≤ e ∧ e ≤ g.point_ids.length := by
  obtain ⟨kx, hkx⟩ := hs.dim_x_pow2
  obtain ⟨ky, hky⟩ := hs.dim_y_pow2
  obtain ⟨kz, hkz⟩ := hs.dim_z_pow2
  obtain ⟨c, hc, hc0, hc1⟩ := hash_grid_index_in_range g kx ky kz hkx hky hkz hfit x y z ox oy oz
  obtain ⟨s, h1, -⟩ := array_read_eq g.cell_starts c hc0
    (by rw [hs.cell_starts_length]; exact hc1)
  obtain ⟨e, h2, -⟩ := array_read_eq g.cell_ends c hc0
    (by rw [hs.cell_ends_length]; exact hc1)
  obtain ⟨r0, r1, r2⟩ := hs.ranges c s e h1 h2
  rw [hs.num_points_eq] at r2
  exact ⟨c, s, e, hc, h1, h2, r0, r1, r2⟩

/-- One pass of the loop from a well-formed state does not fail and leaves a
well-formed state. -/
theorem body_ok (q : hash_grid_query_t) (h : query_ok q) :
    (∃ q1 i, hash_grid_query_next_body q = Step.yield q1 i ∧ query_ok q1) ∨
    (∃ q1, hash_grid_query_next_body q = Step.done q1 ∧ query_ok q1) ∨
    (∃ q1 c, hash_grid_query_next_body q = Step.load q1 c ∧ query_ok q1) := by
  obtain ⟨⟨hs, hfit⟩, ox, oy, oz, lx, ly, lz, c0, c1⟩ := h
  by_cases hlt : q.cell_index < q.cell_end
  · left
    obtain ⟨v, hv, -⟩ := array_read_eq q.grid.point_ids q.cell_index c0 (by omega)
    refine ⟨_, v, body_of_lt q hlt v hv, ⟨hs, hfit⟩, ox, oy, oz, lx, ly, lz, ?_, c1⟩
    show 0 ≤ q.cell_index + 1
    omega
  · right
    have hge := not_lt.mp hlt
    obtain ⟨e1, e2, e3, e4, e5, e6, e7, e8, e9⟩ := cursor_advance_fixed q
    obtain ⟨a1, a2, a3⟩ := cursor_advance_ge q lx ly lz
    by_cases hz : (cursor_advance q).z > (cursor_advance q).z_end
    · left
      refine ⟨cursor_advance q, ?_, ?_⟩
      · rw [body_of_ge q hge, if_pos hz]
      · exact ⟨by rw [e7]; exact ⟨hs, hfit⟩, by omega, by omega, by omega, by omega, by omega, by omega,
          by omega, by rw [e7]; omega⟩
    · right
      obtain ⟨c, s, e, hc, h1, h2, r0, r1, r2⟩ := sized_grid_cell q.grid hs hfit
        (cursor_advance q).x (cursor_advance q).y (cursor_advance q).z
        (by omega) (by omega) (by omega)
      refine ⟨{ cursor_advance q with cell_index := s, cell_end := e }, c, ?_, ?_⟩
      · rw [body_of_ge q hge, if_neg hz, hc]
        simp only [h1, h2]
      · refine ⟨?_, ?_, ?_, ?_, ?_, ?_, ?_, r0, ?_⟩
        · show sized_grid (cursor_advance q).grid ∧
            (cursor_advance q).grid.dim_x * (cursor_advance q).grid.dim_y
              * (cursor_advance q).grid.dim_z < 2 ^ 31
          rw [e7]; exact ⟨hs, hfit⟩
        · show -origin ≤ (cursor_advance q).x_start
          omega
        · show -origin ≤ (cursor_advance q).y_start
          omega
        · show -origin ≤ (cursor_advance q).z_start
          omega
        · show (cursor_advance q).x_start ≤ (cursor_advance q).x
          omega
        · show (cursor_advance q).y_start ≤ (cursor_advance q).y
          omega
        · show (cursor_advance q).z_start ≤ (cursor_advance q).z
          omega
        · show e ≤ ((cursor_advance q).grid.point_ids.length : Int)
          rw [e7]; exact r2

theorem loop_ok (n : Nat) : ∀ q : hash_grid_query_t, query_ok q →
    (∃ q1 i, hash_grid_query_next_loop n q = Outcome.yield q1 i ∧ query_ok q1) ∨
    (∃ q1, hash_grid_query_next_loop n q = Outcome.done q1 ∧ query_ok q1) ∨
    hash_grid_query_next_loop n q = Outcome.timeout := by
  induction n with
  | zero => intro q _; exact Or.inr (Or.inr rfl)
  | succ n ih =>
    intro q h
    simp only [hash_grid_query_next_loop]
    rcases body_ok q h with ⟨q1, i, hb, h1⟩ | ⟨q1, hb, h1⟩ | ⟨q1, c, hb, h1⟩
    · rw [hb]; exact Or.inl ⟨q1, i, rfl, h1⟩
    · rw [hb]; exact Or.inr (Or.inl ⟨q1, rfl, h1⟩)
    · rw [hb]; exact ih q1 h1

/-- A call of `hash_grid_query_next` on a well-formed state returns `true` or
`false`, without a failure, and leaves a well-formed state. -/
theorem next_ok (q : hash_grid_query_t) (h : query_ok q) :
    (∃ q1 i, hash_grid_query_next q = Outcome.yield q1 i ∧ query_ok q1) ∨
    (∃ q1, hash_grid_query_next q = Outcome.done q1 ∧ query_ok q1) := by
  rcases loop_ok (loop_budget q) q h with h1 | h1 | h1
  · exact Or.inl h1
  · exact Or.inr h1
  · exact absurd h1 (hash_grid_query_next_loop_budget q)

theorem reachable_ok (q0 q : hash_grid_query_t) (h0 : query_ok q0) (h : Reachable q0 q) :
    query_ok q := by
  induction h with
  | start => exact h0
  | yield q q1 i _ hn ih =>
    rcases next_ok q ih with ⟨q2, j, h1, h2⟩ | ⟨q2, h1, _⟩
    · rw [h1] at hn
      simp only [Outcome.yield.injEq] at hn
      rw [← hn.1]; exact h2
    · rw [h1] at hn; simp at hn
  | done q q1 _ hn ih =>
    rcases next_ok q ih with ⟨q2, j, h1, _⟩ | ⟨q2, h1, h2⟩
    · rw [h1] at hn; simp at hn
    · rw [h1] at hn
      simp only [Outcome.done.injEq] at hn
      rw [← hn]; exact h2

/-- The state that the query constructor assembles from the corners of a box
is well formed as soon as the start corner passes the assertions of
`hash_grid_index`. -/
theorem query_ok_start (g : HashGrid) (hs : sized_grid g)
    (hfit : g.dim_x * g.dim_y * g.dim_z < 2 ^ 31) (xs ys zs xe ye ze : Int)
    (ox : -2 ^ 24 ≤ xs) (oy : -2 ^ 24 ≤ ys) (oz : -2 ^ 24 ≤ zs) :
    ∃ c s e, hash_grid_index g xs ys zs = some c ∧ array_read g.cell_starts c = some s ∧
      array_read g.cell_ends c = some e ∧
      query_ok { x_start := xs, y_start := ys, z_start := zs, x_end := xe, y_end := ye,
                 z_end := ze, x := xs, y := ys, z := zs, cell_index := s, cell_end := e,
                 grid := g } := by
  obtain ⟨c, s, e, hc, h1, h2, r0, r1, r2⟩ := sized_grid_cell g hs hfit _ _ _ ox oy oz
  exact ⟨c, s, e, hc, h1, h2, ⟨hs, hfit⟩, ox, oy, oz, le_refl _, le_refl _, le_refl _, r0, r2⟩

/-- On a sized grid of fewer than `2^31` cells `hash_grid_query` returns a
well-formed state as soon as the start corner of the box passes the assertions
of `hash_grid_index`. -/
theorem hash_grid_query_ok (g : HashGrid) (hs : sized_grid g)
    (hfit : g.dim_x * g.dim_y * g.dim_z < 2 ^ 31) (pos : vec3) (r : ℚ)
    (ox : -2 ^ 24 ≤ int_cast ((pos.x - r) * g.cell_width_inv))
    (oy : -2 ^ 24 ≤ int_cast ((pos.y - r) * g.cell_width_inv))
    (oz : -2 ^ 24 ≤ int_cast ((pos.z - r) * g.cell_width_inv)) :
    ∃ q0, hash_grid_query g pos r = some q0 ∧ query_ok q0 := by
  obtain ⟨c, s, e, hc, h1, h2, hok⟩ := query_ok_start g hs hfit _ _ _
    (min (int_cast ((pos.x + r) * g.cell_width_inv))
      (int_cast ((pos.x - r) * g.cell_width_inv) + g.dim_x - 1))
    (min (int_cast ((pos.y + r) * g.cell_width_inv))
      (int_cast ((pos.y - r) * g.cell_width_inv) + g.dim_y - 1))
    (min (int_cast ((pos.z + r) * g.cell_width_inv))
      (int_cast ((pos.z - r) * g.cell_width_inv) + g.dim_z - 1)) ox oy oz
  refine ⟨_, ?_, hok⟩
  unfold hash_grid_query
  dsimp only
  rw [hc]
  dsimp only
  rw [h1, h2]

/-- The same for the binary32 reading of `hash_grid_query`. -/
theorem hash_grid_query_f32_ok (g : HashGrid) (hs : sized_grid g)
    (hfit : g.dim_x * g.dim_y * g.dim_z < 2 ^ 31) (pos : vec3) (r : ℚ)
    (ox : -2 ^ 24 ≤ int_cast (float_mul (float_sub pos.x r) g.cell_width_inv))
    (oy : -2 ^ 24 ≤ int_cast (float_mul (float_sub pos.y r) g.cell_width_inv))
    (oz : -2 ^ 24 ≤ int_cast (float_mul (float_sub pos.z r) g.cell_width_inv)) :
    ∃ q0, hash_grid_query_f32 g pos r = some q0 ∧ query_ok q0 := by
  obtain ⟨c, s, e, hc, h1, h2, hok⟩ := query_ok_start g hs hfit _ _ _
    (min (int_cast (float_mul (float_add pos.x r) g.cell_width_inv))
      (int_cast (float_mul (float_sub pos.x r) g.cell_width_inv) + g.dim_x - 1))
    (min (int_cast (float_mul (float_add pos.y r) g.cell_width_inv))
      (int_cast (float_mul (float_sub pos.y r) g.cell_width_inv) + g.dim_y - 1))
    (min (int_cast (float_mul (float_add pos.z r) g.cell_width_inv))
      (int_cast (float_mul (float_sub pos.z r) g.cell_width_inv) + g.dim_z - 1)) ox oy oz
  refine ⟨_, ?_, hok⟩
  unfold hash_grid_query_f32
  dsimp only
  rw [hc]
  dsimp only
  rw [h1, h2]

theorem grid_big_sized : sized_grid grid_big where
  dim_x_pow2 := ⟨15, rfl⟩
  dim_y_pow2 := ⟨15, rfl⟩
  dim_z_pow2 := ⟨2, rfl⟩
  num_points_eq := rfl
  cell_starts_length := by
    show ((List.replicate 4294967296 (0 : Int)).length : Int) = 32768 * 32768 * 4
    rw [List.length_replicate]
    rfl
  cell_ends_length := by
    show ((List.replicate 4294967296 (0 : Int)).length : Int) = 32768 * 32768 * 4
    rw [List.length_replicate]
    rfl
  ranges := by
    intro c s e hs he
    have h1 := array_read_replicate_zero 4294967296 c s hs
    have h2 := array_read_replicate_zero 4294967296 c e he
    subst h1
    subst h2
    exact ⟨le_refl _, le_refl _, le_refl _⟩

/-- C13, as stated, fails: the grid with dims `(32768, 32768, 4)`, correctly
sized cell arrays of `2^32` zeros and no point satisfies the requirements, and
the box of the query around `(1.5, 1.5, 3.5)` with radius `0.25` has its start
corner `(1, 1, 3)` above `-2^24`; but the cell id `3*2^30 + 2^15 + 1` overflows
to `-1073709055`, the read of `cell_starts` at that id fails, and
`hash_grid_query` returns no state. -/
theorem query_fails_on_big_grid :
    sized_grid grid_big ∧
    (-2 ^ 24 ≤ int_cast (float_mul (float_sub (3/2) (1/4)) grid_big.cell_width_inv) ∧
      -2 ^ 24 ≤ int_cast (float_mul (float_sub (3/2) (1/4)) grid_big.cell_width_inv) ∧
      -2 ^ 24 ≤ int_cast (float_mul (float_sub (7/2) (1/4)) grid_big.cell_width_inv)) ∧
    hash_grid_index grid_big 1 1 3 = some (-1073709055) ∧
    hash_grid_query_f32 grid_big ⟨3/2, 3/2, 7/2⟩ (1/4) = none :=
  ⟨grid_big_sized, by decide!, by decide!, by decide!⟩

/-- C13, amended: on a grid with power-of-two dimensions and fewer than `2^31`
cells, correctly sized arrays and `0 ≤ cell_starts[c] ≤ cell_ends[c] ≤ N`, for
a query whose start corner is `≥ -2^24`, `hash_grid_query` and every later
call of `hash_grid_query_next` never fail: `hash_grid_query` returns a state,
and every call made on a state reached from it returns `true` or `false`, so
that no assertion of `hash_grid_index` and no read of `cell_starts`,
`cell_ends` or `point_ids` fails in any pass. -/
theorem query_never_fails (g : HashGrid) (hs : sized_grid g)
    (hfit : g.dim_x * g.dim_y * g.dim_z < 2 ^ 31) (pos : vec3) (r : ℚ)
    (ox : -2 ^ 24 ≤ int_cast (float_mul (float_sub pos.x r) g.cell_width_inv))
    (oy : -2 ^ 24 ≤ int_cast (float_mul (float_sub pos.y r) g.cell_width_inv))
    (oz : -2 ^ 24 ≤ int_cast (float_mul (float_sub pos.z r) g.cell_width_inv)) :
    ∃ q0, hash_grid_query_f32 g pos r = some q0 ∧
      ∀ q, Reachable q0 q →
        (∃ q1 i, hash_grid_query_next q = Outcome.yield q1 i) ∨
        (∃ q1, hash_grid_query_next q = Outcome.done q1) := by
  obtain ⟨q0, hq, h0⟩ := hash_grid_query_f32_ok g hs hfit pos r ox oy oz
  refine ⟨q0, hq, fun q hr => ?_⟩
  rcases next_ok q (reachable_ok q0 q h0 hr) with ⟨q1, i, h1, -⟩ | ⟨q1, h1, -⟩
  · exact Or.inl ⟨q1, i, h1⟩
  · exact Or.inr ⟨q1, h1⟩

theorem query_never_fails_witness :
    sized_grid grid_alias ∧
    grid_alias.dim_x * grid_alias.dim_y * grid_alias.dim_z < 2 ^ 31 ∧
    (-2 ^ 24 ≤ int_cast (float_mul (float_sub (⟨1/2, 1/2, 1/2⟩ : vec3).x 1)
        grid_alias.cell_width_inv) ∧
      -2 ^ 24 ≤ int_cast (float_mul (float_sub (⟨1/2, 1/2, 1/2⟩ : vec3).y 1)
        grid_alias.cell_width_inv) ∧
      -2 ^ 24 ≤ int_cast (float_mul (float_sub (⟨1/2, 1/2, 1/2⟩ : vec3).z 1)
        grid_alias.cell_width_inv)) ∧
    ∃ q0, hash_grid_query_f32 grid_alias ⟨1/2, 1/2, 1/2⟩ 1 = some q0 ∧
      ∀ q, Reachable q0 q →
        (∃ q1 i, hash_grid_query_next q = Outcome.yield q1 i) ∨
        (∃ q1, hash_grid_query_next q = Outcome.done q1) :=
  ⟨valid_grid_sized grid_alias grid_alias_valid, by decide, by decide!,
    query_never_fails grid_alias (valid_grid_sized grid_alias grid_alias_valid) (by decide)
      ⟨1/2, 1/2, 1/2⟩ 1 (by decide!) (by decide!) (by decide!)⟩

/-! ## Termination -/

theorem query_alias_past_exhausted : exhausted query_alias_past :=
  ⟨by decide, by decide⟩

/-- The exhausted state `query_alias_past` is the one in which draining
`query_alias_wide` ends: two calls yield the two points, the third returns
`false`. -/
theorem query_alias_past_reachable : Reachable query_alias_wide query_alias_past :=
  Reachable.done { query_alias_wide with cell_index := 2 } query_alias_past
    (Reachable.yield { query_alias_wide with cell_index := 1 } _ 1
      (Reachable.yield query_alias_wide _ 0 Reachable.start (by decide!)) (by decide!))
    (by decide!)

/-- C16, as stated, fails: on the exhausted state `query_alias_past` (cursor
`(0, 0, 2)`, `z_end = 1`, `x_end = 1`) a call returns `false` but moves the
cursor to `x = 1`, and a second call moves it on to `(0, 1, 2)`: neither call
leaves the state unchanged, and two calls do not give the state one call
gives. -/
theorem exhausted_next_changes_state :
    exhausted query_alias_past ∧
    hash_grid_query_next query_alias_past
      = Outcome.done { query_alias_past with x := 1 } ∧
    ({ query_alias_past with x := 1 } : hash_grid_query_t) ≠ query_alias_past ∧
    hash_grid_query_next { query_alias_past with x := 1 }
      = Outcome.done { query_alias_past with y := 1 } ∧
    ({ query_alias_past with y := 1 } : hash_grid_query_t)
      ≠ { query_alias_past with x := 1 } :=
  ⟨query_alias_past_exhausted, by decide!, by decide!, by decide!, by decide!⟩

/-- C16, amended: on an exhausted state (`z > z_end` and
`cell_index ≥ cell_end`) a call of `hash_grid_query_next` returns `false` and
leaves an exhausted state with the same bounds, grid, `cell_index` and
`cell_end`; the cursor `(x, y, z)` takes one more step of the walk, with `z`
not decreasing. -/
theorem exhausted_next_exhausted (q : hash_grid_query_t) (h : exhausted q) :
    ∃ q1, hash_grid_query_next q = Outcome.done q1 ∧ exhausted q1 ∧
      q1.x_start = q.x_start ∧ q1.y_start = q.y_start ∧ q1.z_start = q.z_start ∧
      q1.x_end = q.x_end ∧ q1.y_end = q.y_end ∧ q1.z_end = q.z_end ∧
      q1.grid = q.grid ∧ q1.cell_index = q.cell_index ∧ q1.cell_end = q.cell_end ∧
      q1.x = (cursor_advance q).x ∧ q1.y = (cursor_advance q).y ∧
      q1.z = (cursor_advance q).z ∧ q.z ≤ q1.z := by
  obtain ⟨h1, h2⟩ := next_of_exhausted q h
  obtain ⟨e1, e2, e3, e4, e5, e6, e7, e8, e9⟩ := cursor_advance_fixed q
  exact ⟨cursor_advance q, h1, h2, e1, e2, e3, e4, e5, e6, e7, e8, e9, rfl, rfl, rfl,
    cursor_advance_z_le q⟩

theorem exhausted_next_exhausted_witness :
    exhausted query_alias_past ∧
    ∃ q1, hash_grid_query_next query_alias_past = Outcome.done q1 ∧ exhausted q1 ∧
      q1.x_start = query_alias_past.x_start ∧ q1.y_start = query_alias_past.y_start ∧
      q1.z_start = query_alias_past.z_start ∧
      q1.x_end = query_alias_past.x_end ∧ q1.y_end = query_alias_past.y_end ∧
      q1.z_end = query_alias_past.z_end ∧
      q1.grid = query_alias_past.grid ∧ q1.cell_index = query_alias_past.cell_index ∧
      q1.cell_end = query_alias_past.cell_end ∧
      q1.x = (cursor_advance query_alias_past).x ∧ q1.y = (cursor_advance query_alias_past).y ∧
      q1.z = (cursor_advance query_alias_past).z ∧ query_alias_past.z ≤ q1.z :=
  ⟨query_alias_past_exhausted, exhausted_next_exhausted query_alias_past
    query_alias_past_exhausted⟩

/-! ## Quantization by the integer cast -/

theorem int_cast_le_of_nonneg (t : ℚ) (h : 0 ≤ t) : (int_cast t : ℚ) ≤ t := by
  unfold int_cast
  rw [if_pos h]
  exact Int.floor_le t

theorem int_cast_ge_of_nonpos (t : ℚ) (h : t ≤ 0) : t ≤ (int_cast t : ℚ) := by
  unfold int_cast
  split_ifs with h0
  · have : t = 0 := le_antisymm h h0
    subst this
    simp
  · exact Int.le_ceil t

theorem int_cast_zero : int_cast 0 = 0 := by
  simp [int_cast]

/-- Coordinates less than one apart are cast to integers at most one apart. -/
theorem int_cast_near (A B : ℚ) (hAB : A ≤ B) (h : B - A < 1) :
    int_cast B - int_cast A ≤ 1 := by
  have hA := int_cast_gt A
  have hB := int_cast_lt B
  have key : (int_cast B : ℚ) < int_cast A + 2 := by
    rcases le_or_lt 0 A with h0 | h0
    · have := int_cast_le_of_nonneg B (le_trans h0 hAB)
      linarith
    · rcases le_or_lt B 0 with h1 | h1
      · have := int_cast_ge_of_nonpos A (le_of_lt h0)
        linarith
      · have := int_cast_le_of_nonneg B (le_of_lt h1)
        have := int_cast_ge_of_nonpos A (le_of_lt h0)
        linarith
  have : int_cast B < int_cast A + 2 := by exact_mod_cast key
  omega

/-- Coordinates on the two sides of zero and less than one apart are both cast
to zero. -/
theorem int_cast_across_zero (A B : ℚ) (hA : A < 0) (hB : 0 < B) (h : B - A < 1) :
    int_cast A = 0 ∧ int_cast B = 0 := by
  have a1 := int_cast_ge_of_nonpos A (le_of_lt hA)
  have b1 := int_cast_le_of_nonneg B (le_of_lt hB)
  have a2 := int_cast_mono A 0 (le_of_lt hA)
  have b2 := int_cast_mono 0 B (le_of_lt hB)
  rw [int_cast_zero] at a2 b2
  have a3 : (-1 : ℚ) < (int_cast A : ℚ) := by linarith
  have b3 : (int_cast B : ℚ) < 1 := by linarith
  have a4 : -1 < int_cast A := by exact_mod_cast a3
  have b4 : int_cast B < 1 := by exact_mod_cast b3
  omega

theorem scaled_near (w inv a b : ℚ) (hw : 0 < w) (hinv : inv = 1 / w) (h : b - a < w) :
    b * inv - a * inv < 1 := by
  rw [hinv]
  have : b * (1 / w) - a * (1 / w) = (b - a) / w := by field_simp
  rw [this, div_lt_one hw]
  exact h

theorem hash_grid_index_vec3_eq (g : HashGrid) (p : vec3) :
    hash_grid_index_vec3 g p
      = hash_grid_index g (virtual_coord g p.x) (virtual_coord g p.y) (virtual_coord g p.z) :=
  rfl

/-- C17, as stated, fails: with a positive cell width and its inverse there are
no two coordinates on opposite sides of the origin, less than one cell width
apart, whose virtual cell coordinates differ by more than one. -/
theorem no_split_across_origin :
    ¬ ∃ (g : HashGrid) (a b : ℚ), 0 < g.cell_width ∧ g.cell_width_inv = 1 / g.cell_width ∧
      a < 0 ∧ 0 < b ∧ b - a < g.cell_width ∧
      1 < |virtual_coord g b - virtual_coord g a| := by
  rintro ⟨g, a, b, hw, hinv, ha, hb, hab, hd⟩
  have hi : 0 < g.cell_width_inv := by rw [hinv]; exact one_div_pos.mpr hw
  obtain ⟨h1, h2⟩ := int_cast_across_zero (a * g.cell_width_inv) (b * g.cell_width_inv)
    (mul_neg_of_neg_of_pos ha hi) (mul_pos hb hi) (scaled_near _ _ a b hw hinv hab)
  unfold virtual_coord at hd
  rw [h1, h2] at hd
  simp at hd

/-- Truncation of two numbers on the two sides of zero that are less than
two apart gives integers at most one apart. -/
theorem int_cast_apart (A B : ℚ) (hA : A ≤ 0) (hB : 0 ≤ B) (h : B - A < 2) :
    |int_cast B - int_cast A| ≤ 1 := by
  have a1 := int_cast_ge_of_nonpos A hA
  have b1 := int_cast_le_of_nonneg B hB
  have a2 := int_cast_mono A 0 hA
  have b2 := int_cast_mono 0 B hB
  rw [int_cast_zero] at a2 b2
  have h3 : (int_cast B : ℚ) - (int_cast A : ℚ) < 2 := by linarith
  have h4 : int_cast B - int_cast A < 2 := by exact_mod_cast h3
  rw [abs_le]
  constructor <;> omega

/-- C17, amended: under the quantization of `hash_grid_index(vec3)` (integer
cast of `coordinate * cell_width_inv`, a truncation toward zero), with
`cell_width_inv` equal to `1 / cell_width` up to binary32 rounding
(`0 < cell_width_inv` and `cell_width * cell_width_inv ≤ 1 + 2^-24`; in
particular the exact inverse of a positive cell width), two coordinates on
opposite sides of the origin that differ by less than one cell width never get
virtual cell coordinates that differ by more than one, whether the product is
exact or rounded to binary32. -/
theorem virtual_coord_near (g : HashGrid)
    (hi : 0 < g.cell_width_inv) (hwi : g.cell_width * g.cell_width_inv ≤ 1 + 1 / 2 ^ 24)
    (a b : ℚ) (ha : a < 0) (hb : 0 < b) (hab : b - a < g.cell_width) :
    |virtual_coord g b - virtual_coord g a| ≤ 1 ∧
    |virtual_coord_f32 g b - virtual_coord_f32 g a| ≤ 1 := by
  have hA : a * g.cell_width_inv < 0 := mul_neg_of_neg_of_pos ha hi
  have hB : 0 < b * g.cell_width_inv := mul_pos hb hi
  have hd : b * g.cell_width_inv - a * g.cell_width_inv < 1 + 1 / 2 ^ 24 := by
    have h1 : (b - a) * g.cell_width_inv < g.cell_width * g.cell_width_inv :=
      mul_lt_mul_of_pos_right hab hi
    have h2 : b * g.cell_width_inv - a * g.cell_width_inv = (b - a) * g.cell_width_inv := by
      ring
    rw [h2]
    exact lt_of_lt_of_le h1 hwi
  have z0 : fl32 0 = 0 := by decide!
  constructor
  · unfold virtual_coord
    exact int_cast_apart _ _ hA.le hB.le (by norm_num at hd ⊢; linarith)
  · unfold virtual_coord_f32 float_mul
    have hA1 : fl32 (a * g.cell_width_inv) ≤ 0 := by
      have := fl32_mono _ _ hA.le
      rw [z0] at this
      exact this
    have hB1 : 0 ≤ fl32 (b * g.cell_width_inv) := by
      have := fl32_mono _ _ hB.le
      rw [z0] at this
      exact this
    have a1 := int_cast_ge_of_nonpos _ hA1
    have b1 := int_cast_le_of_nonneg _ hB1
    have a2 := int_cast_mono _ 0 hA1
    have b2 := int_cast_mono 0 _ hB1
    rw [int_cast_zero] at a2 b2
    have key : int_cast (fl32 (b * g.cell_width_inv))
        - int_cast (fl32 (a * g.cell_width_inv)) < 2 := by
      by_contra hn
      have hn2 : (2 : ℚ) ≤ (int_cast (fl32 (b * g.cell_width_inv)) : ℚ)
          - (int_cast (fl32 (a * g.cell_width_inv)) : ℚ) := by
        have : 2 ≤ int_cast (fl32 (b * g.cell_width_inv))
            - int_cast (fl32 (a * g.cell_width_inv)) := by omega
        exact_mod_cast this
      have u1 : fl32 (1 + 1 / 2 ^ 24) = 1 := by decide!
      have u2 : fl32 (1 - 1 / 2 ^ 24) = 1 - 1 / 2 ^ 24 := by decide!
      have u3 : fl32 (-(1 + 1 / 2 ^ 24)) = -1 := by rw [fl32_neg, u1]
      have u4 : fl32 (-(1 - 1 / 2 ^ 24)) = -(1 - 1 / 2 ^ 24) := by rw [fl32_neg, u2]
      have hBu : fl32 (b * g.cell_width_inv) ≤ 1 := by
        have := fl32_mono (b * g.cell_width_inv) (1 + 1 / 2 ^ 24) (by linarith)
        rw [u1] at this
        exact this
      have hAl : -1 ≤ fl32 (a * g.cell_width_inv) := by
        have := fl32_mono (-(1 + 1 / 2 ^ 24)) (a * g.cell_width_inv) (by linarith)
        rw [u3] at this
        exact this
      have hB2 : 1 - 1 / 2 ^ 24 < b * g.cell_width_inv := by
        by_contra hc
        have := fl32_mono _ _ (not_lt.mp hc)
        rw [u2] at this
        norm_num at this
        linarith
      have hA2 : a * g.cell_width_inv < -(1 - 1 / 2 ^ 24) := by
        by_contra hc
        have := fl32_mono _ _ (not_lt.mp hc)
        rw [u4] at this
        norm_num at this
        linarith
      norm_num at hd hB2 hA2
      linarith
    rw [abs_le]
    constructor <;> omega

theorem virtual_coord_near_witness :
    (0 : ℚ) < grid_alias.cell_width_inv ∧
    grid_alias.cell_width * grid_alias.cell_width_inv ≤ 1 + 1 / 2 ^ 24 ∧
    (-1/2 : ℚ) < 0 ∧ (0 : ℚ) < 2/5 ∧ (2/5 : ℚ) - (-1/2) < grid_alias.cell_width ∧
    |virtual_coord grid_alias (2/5) - virtual_coord grid_alias (-1/2)| ≤ 1 ∧
    |virtual_coord_f32 grid_alias (2/5) - virtual_coord_f32 grid_alias (-1/2)| ≤ 1 :=
  ⟨by decide!, by decide!, by decide!, by decide!, by decide!,
    virtual_coord_near grid_alias (by decide!) (by decide!) (-1/2) (2/5)
      (by decide!) (by decide!) (by decide!)⟩

/-- What the integer cast does instead: virtual cell `0` is two cell widths
wide, so points `1.8` cell widths apart can share it. -/
theorem virtual_coord_wide_cell :
    virtual_coord grid_alias (-9/10) = 0 ∧ virtual_coord grid_alias (9/10) = 0 := by
  decide!

/-! ## Soundness of the candidates -/

end wp
